import Mathlib

/-!
Verification of the merge-and-reconcile engine in `datamerge.py`.

Shallow embedding conventions:
* A pandas `DataFrame` is modelled as a list of column labels together with a
  list of rows; each row is an association list from column label to cell.
* A cell is `Option String`: `none` models a null/NaN cell.  The concrete
  scalar type of a cell is irrelevant to every property proved here, so all
  scalars are represented by their string form.
* File input/output (`pd.read_csv`, `to_csv`) is an external collaborator and
  is not modelled; functions that in the source start from a freshly loaded
  frame are stated over an arbitrary already-loaded frame.
* Python exceptions (`KeyError`, `ValueError`, `pandas.errors.MergeError`) are
  modelled by an `Except` result over the structured error type `DmError`;
  each constructor carries the data interpolated into the Python message.
-/

/-- A cell of a table: `none` models a null/NaN value. -/
abbrev Cell := Option String

/-- A row, as an association list from column label to cell value. -/
abbrev Row := List (String × Cell)

/-- A table: column labels plus rows.  Mirrors a `pandas.DataFrame`. -/
structure DataFrame where
  cols : List String
  rows : List Row
  deriving Repr, DecidableEq

/-- First value stored under label `c` in row `r`, or `none` if the label is
absent.  Mirrors positional access `row[c]` on a frame. -/
def lookupVal : Row → String → Option Cell
  | [], _ => none
  | (k, v) :: rest, c => if k = c then some v else lookupVal rest c

/-- Cell access treating an absent label as a null cell. -/
def lookupCell (r : Row) (c : String) : Cell :=
  (lookupVal r c).getD none

/-- The tuple of key cells of a row, one entry per key column.  Mirrors the
row identity used by `drop_duplicates(subset=keys)` and `pd.merge(on=keys)`.
The outer `Option` distinguishes an absent key column from a null cell. -/
def keyOf (keys : List String) (r : Row) : List (Option Cell) :=
  keys.map (fun k => lookupVal r k)

/-- Column assignment on one row, mirroring `df[c] = value` per row: every
entry labelled `c` is overwritten; if no entry is labelled `c`, a new entry is
appended at the end (pandas appends new columns on the right). -/
def setCell (r : Row) (c : String) (v : Cell) : Row :=
  if c ∈ r.map Prod.fst then
    r.map (fun p => if p.1 = c then (p.1, v) else p)
  else r ++ [(c, v)]

/-- Well-formedness: each row carries exactly the frame's column labels, in
order.  Every frame produced by the loader or the merge engine satisfies
this. -/
def DataFrame.Wf (df : DataFrame) : Prop :=
  ∀ r ∈ df.rows, r.map Prod.fst = df.cols

instance (df : DataFrame) : Decidable df.Wf :=
  inferInstanceAs (Decidable (∀ r ∈ df.rows, r.map Prod.fst = df.cols))

/-! ### Column normalization (`normalize_columns`) -/

/-- Whitespace in the sense of Python `str.strip()` (ASCII range). -/
def pyIsSpaceChar (c : Char) : Bool :=
  c == ' ' || c == '\t' || c == '\n' || c == '\r' || c == '\x0b' || c == '\x0c'

/-- One character of Python `str.lower()`, for the ASCII letters (column
names; non-ASCII case folding is out of scope of the embedding). -/
def pyLowerChar (c : Char) : Char :=
  if 'A' ≤ c ∧ c ≤ 'Z' then Char.ofNat (c.toNat + 32) else c

/-- One character of `str.replace(" ", "_")` (a single-character pattern
replacement acts characterwise). -/
def replSpaceChar (c : Char) : Char :=
  if c = ' ' then '_' else c

/-- Python `str.strip()` on a character list: drop whitespace from both
ends. -/
def listStrip (l : List Char) : List Char :=
  ((l.dropWhile pyIsSpaceChar).reverse.dropWhile pyIsSpaceChar).reverse

/-- The `_clean` helper inside `normalize_columns`, on a character list:
optionally strip, then lower-case, then replace spaces by underscores, in
the source's order. -/
def cleanChars (strip lower spaces : Bool) (l : List Char) : List Char :=
  let s1 := if strip then listStrip l else l
  let s2 := if lower then s1.map pyLowerChar else s1
  if spaces then s2.map replSpaceChar else s2

/-- The `_clean` helper of `normalize_columns` on a column name. -/
def cleanName (strip lower spaces : Bool) (s : String) : String :=
  ⟨cleanChars strip lower spaces s.data⟩

/-- `normalize_columns(df, lower, strip, spaces_to_underscores)`: renames
every column label by `_clean`; cell values are untouched.  Renaming a
pandas frame relabels the columns, which in the association-list row model
relabels each row entry's key while keeping its value. -/
def normalize_columns (df : DataFrame) (lower strip spaces : Bool) : DataFrame :=
  { cols := df.cols.map (cleanName strip lower spaces),
    rows := df.rows.map (fun r => r.map (fun p => (cleanName strip lower spaces p.1, p.2))) }

/-! ### Errors -/

/-- Structured counterpart of the exceptions raised by `datamerge.py` (and by
the pandas calls it makes); each constructor carries the data interpolated
into the corresponding Python message. -/
inductive DmError where
  | keysNotFound (missing : List String)
  | joinKeysMissing (missingLeft missingRight : List String)
  | badHow (how : String)
  | indicatorConflict
  | badValidate (token : String)
  | cardinalityViolated (token : String)
  | unknownStrategy (strategy base : String)
  | noMergeColumn
  | badKeep (keep : String)
  deriving Repr, DecidableEq

/-! ### Safe dtype casting inside `read_csv` -/

/-- The values of column `c`, in row order (`df[c]`). -/
def colCells (df : DataFrame) (c : String) : List Cell :=
  df.rows.map (fun r => lookupCell r c)

/-- `df[c] = vals`: overwrite (or append) column `c` with the given values,
one per row. -/
def setColVals (df : DataFrame) (c : String) (vals : List Cell) : DataFrame :=
  { cols := if c ∈ df.cols then df.cols else df.cols ++ [c],
    rows := df.rows.zipWith (fun r v => setCell r c v) vals }

/-- The warning `read_csv` prints to stderr when a cast fails. -/
def castWarnMsg (col dtype err : String) : String :=
  "[WARN] Could not cast column " ++ col ++ " to " ++ dtype ++ ": " ++ err

/-- The dtype-coercion loop of `read_csv`: for each `(col, dtype)` entry with
`col` present, try the cast; on success overwrite the column, on failure keep
the column and record the warning.  The cast itself (`Series.astype`) is a
pandas primitive and is a parameter of the embedding; loading file contents
is external I/O and starts the loop from the already-parsed frame.  Returns
the frame plus the emitted warnings, in order. -/
def applyDtypeMap (cast : String → List Cell → Except String (List Cell)) :
    DataFrame → List (String × String) → DataFrame × List String
  | df, [] => (df, [])
  | df, (col, dtype) :: rest =>
    if col ∈ df.cols then
      match cast dtype (colCells df col) with
      | .ok vals => applyDtypeMap cast (setColVals df col vals) rest
      | .error e =>
        let out := applyDtypeMap cast df rest
        (out.1, castWarnMsg col dtype e :: out.2)
    else applyDtypeMap cast df rest

/-! ### De-duplication (`drop_dupes_on`) -/

/-- `drop_duplicates(subset, keep="last")`: keep a row exactly when no later
row has the same key; relative order of kept rows is unchanged. -/
def dedupKeepLast {α κ : Type} [DecidableEq κ] (key : α → κ) : List α → List α
  | [] => []
  | r :: rs =>
    if rs.any (fun r2 => decide (key r2 = key r)) then dedupKeepLast key rs
    else r :: dedupKeepLast key rs

/-- `drop_duplicates(subset, keep="first")`: keep a row exactly when its key
was not seen earlier. -/
def dedupKeepFirstAux {α κ : Type} [DecidableEq κ] (key : α → κ) (seen : List κ) :
    List α → List α
  | [] => []
  | r :: rs =>
    if key r ∈ seen then dedupKeepFirstAux key seen rs
    else r :: dedupKeepFirstAux key (key r :: seen) rs

/-- `drop_dupes_on(df, keys, keep)`: fail fast when a key column is missing,
else drop duplicate key rows per the keep policy (pandas rejects any keep
other than first/last/False; `False` is not a string and never reaches this
wrapper from the repository). -/
def drop_dupes_on (df : DataFrame) (keys : List String) (keep : String) :
    Except DmError DataFrame :=
  let missing := keys.filter (fun k => decide (k ∉ df.cols))
  if missing ≠ [] then .error (.keysNotFound missing)
  else if keep = "first" then
    .ok { df with rows := dedupKeepFirstAux (keyOf keys) [] df.rows }
  else if keep = "last" then
    .ok { df with rows := dedupKeepLast (keyOf keys) df.rows }
  else .error (.badKeep keep)

/-! ### The merge engine (`merge_frames` over `pd.merge`) -/

/-- Left-side output label: overlapping non-key labels get the left suffix. -/
def sufL (rrest : List String) (ls c : String) : String :=
  if c ∈ rrest then c ++ ls else c

/-- Right-side output label: overlapping non-key labels get the right
suffix. -/
def sufR (lrest : List String) (rs c : String) : String :=
  if c ∈ lrest then c ++ rs else c

/-- The non-key columns of one side. -/
def nonKeyCols (cols onKeys : List String) : List String :=
  cols.filter (fun c => decide (c ∉ onKeys))

/-- The data `pd.merge` derives from its arguments before producing rows. -/
structure MergeSpec where
  onKeys : List String
  lrest : List String
  rrest : List String
  ls : String
  rs : String
  indicator : Bool

def MergeSpec.ofArgs (left right : DataFrame) (onKeys : List String)
    (suffixes : String × String) (indicator : Bool) : MergeSpec :=
  ⟨onKeys, nonKeyCols left.cols onKeys, nonKeyCols right.cols onKeys, suffixes.1, suffixes.2, indicator⟩

/-- The `_merge` indicator entry appended to each output row. -/
def MergeSpec.tagEntries (ms : MergeSpec) (tag : String) : Row :=
  if ms.indicator then [("_merge", some tag)] else []

/-- Output row for a matched pair of input rows (`_merge = "both"`).  The
column order of the output abstracts from pandas (keys first, then left
block, then right block); no property below depends on column order. -/
def MergeSpec.combineBoth (ms : MergeSpec) (la rb : Row) : Row :=
  ms.onKeys.map (fun k => (k, lookupCell la k))
  ++ ms.lrest.map (fun c => (sufL ms.rrest ms.ls c, lookupCell la c))
  ++ ms.rrest.map (fun c => (sufR ms.lrest ms.rs c, lookupCell rb c))
  ++ ms.tagEntries "both"

/-- Output row for an unmatched left row: right block is null. -/
def MergeSpec.combineLeftOnly (ms : MergeSpec) (la : Row) : Row :=
  ms.onKeys.map (fun k => (k, lookupCell la k))
  ++ ms.lrest.map (fun c => (sufL ms.rrest ms.ls c, lookupCell la c))
  ++ ms.rrest.map (fun c => (sufR ms.lrest ms.rs c, (none : Cell)))
  ++ ms.tagEntries "left_only"

/-- Output row for an unmatched right row: left block is null. -/
def MergeSpec.combineRightOnly (ms : MergeSpec) (rb : Row) : Row :=
  ms.onKeys.map (fun k => (k, lookupCell rb k))
  ++ ms.lrest.map (fun c => (sufL ms.rrest ms.ls c, (none : Cell)))
  ++ ms.rrest.map (fun c => (sufR ms.lrest ms.rs c, lookupCell rb c))
  ++ ms.tagEntries "right_only"

/-- Column labels of the merge output. -/
def MergeSpec.outCols (ms : MergeSpec) : List String :=
  ms.onKeys ++ ms.lrest.map (sufL ms.rrest ms.ls) ++ ms.rrest.map (sufR ms.lrest ms.rs)
  ++ (if ms.indicator then ["_merge"] else [])

/-- Two rows match when their key tuples agree. -/
def sameKey (onKeys : List String) (r1 r2 : Row) : Bool :=
  decide (keyOf onKeys r1 = keyOf onKeys r2)

/-- Inner join: one output row per matching pair. -/
def MergeSpec.innerRows (ms : MergeSpec) (lrows rrows : List Row) : List Row :=
  lrows.flatMap (fun la =>
    (rrows.filter (fun rb => sameKey ms.onKeys rb la)).map (ms.combineBoth la))

/-- Left join: matched pairs, plus one left-only row per unmatched left
row. -/
def MergeSpec.leftJoinRows (ms : MergeSpec) (lrows rrows : List Row) : List Row :=
  lrows.flatMap (fun la =>
    let mr := rrows.filter (fun rb => sameKey ms.onKeys rb la)
    if mr.isEmpty then [ms.combineLeftOnly la] else mr.map (ms.combineBoth la))

/-- Right join: the mirror of the left join, ordered by the right frame. -/
def MergeSpec.rightJoinRows (ms : MergeSpec) (lrows rrows : List Row) : List Row :=
  rrows.flatMap (fun rb =>
    let ml := lrows.filter (fun la => sameKey ms.onKeys la rb)
    if ml.isEmpty then [ms.combineRightOnly rb] else ml.map (fun la => ms.combineBoth la rb))

/-- Outer join: the left-join rows plus a right-only row per unmatched right
row (pandas additionally sorts outer results by key; row order is not
load-bearing for any property below). -/
def MergeSpec.outerRows (ms : MergeSpec) (lrows rrows : List Row) : List Row :=
  ms.leftJoinRows lrows rrows
  ++ (rrows.filter (fun rb =>
        (lrows.filter (fun la => sameKey ms.onKeys la rb)).isEmpty)).map ms.combineRightOnly

/-- Dispatch on the join type (already validated). -/
def MergeSpec.rowsFor (ms : MergeSpec) (how : String) (lrows rrows : List Row) : List Row :=
  if how = "inner" then ms.innerRows lrows rrows
  else if how = "left" then ms.leftJoinRows lrows rrows
  else if how = "right" then ms.rightJoinRows lrows rrows
  else ms.outerRows lrows rrows

/-- Are the realized key tuples of one side pairwise distinct?  This is the
uniqueness test pandas validation performs per side. -/
def keysUnique (rows : List Row) (onKeys : List String) : Bool :=
  decide ((rows.map (keyOf onKeys)).Nodup)

/-- pandas cardinality validation: `some passed` for a recognized token,
`none` for an unrecognized one (which pandas rejects with `ValueError`). -/
def checkCardinality (token : String) (leftUnique rightUnique : Bool) : Option Bool :=
  if token = "one_to_one" ∨ token = "1:1" then some (leftUnique && rightUnique)
  else if token = "one_to_many" ∨ token = "1:m" then some leftUnique
  else if token = "many_to_one" ∨ token = "m:1" then some rightUnique
  else if token = "many_to_many" ∨ token = "m:m" then some true
  else none

/-- `merge_frames`: check the join keys exist on both sides (the wrapper's
own `KeyError`), then perform `pd.merge` — which validates the join type,
rejects an indicator clash with an existing `_merge` column, checks the
cardinality contract when requested, and otherwise returns the joined
frame. -/
def merge_frames (left right : DataFrame) (onKeys : List String) (how : String)
    (validate : Option String) (suffixes : String × String) (indicator : Bool) :
    Except DmError DataFrame :=
  let missingLeft := onKeys.filter (fun k => decide (k ∉ left.cols))
  let missingRight := onKeys.filter (fun k => decide (k ∉ right.cols))
  if missingLeft ≠ [] ∨ missingRight ≠ [] then
    .error (.joinKeysMissing missingLeft missingRight)
  else if ¬ (how = "inner" ∨ how = "left" ∨ how = "right" ∨ how = "outer") then
    .error (.badHow how)
  else if indicator ∧ ("_merge" ∈ left.cols ∨ "_merge" ∈ right.cols) then
    .error .indicatorConflict
  else
    let ms := MergeSpec.ofArgs left right onKeys suffixes indicator
    let result : DataFrame := { cols := ms.outCols, rows := ms.rowsFor how left.rows right.rows }
    match validate with
    | none => .ok result
    | some token =>
      match checkCardinality token (keysUnique left.rows onKeys) (keysUnique right.rows onKeys) with
      | none => .error (.badValidate token)
      | some true => .ok result
      | some false => .error (.cardinalityViolated token)

/-! ### Conflict resolution (`resolve_conflicts`) -/

/-- `left.where(left.notna(), right)` on one pair of cells. -/
def coalesceCell (l r : Cell) : Cell :=
  if l.isSome then l else r

/-- `df[out] = f(row)` for every row: derive a column from the existing
row. -/
def setColWith (df : DataFrame) (out : String) (f : Row → Cell) : DataFrame :=
  { cols := if out ∈ df.cols then df.cols else df.cols ++ [out],
    rows := df.rows.map (fun r => setCell r out (f r)) }

/-- `resolve_conflicts`: walk the strategy map in order; skip entries whose
suffixed column pair is not fully present; apply left/right/coalesce; raise
`ValueError` on any other strategy string.  The Python function mutates the
frame in place, so the second component is the frame state when the walk
stops — also in the error case, where it holds the mutations applied before
the raise. -/
def resolve_conflicts (df : DataFrame) (baseToStrategy : List (String × String))
    (suffixes : String × String) : Except DmError Unit × DataFrame :=
  match baseToStrategy with
  | [] => (.ok (), df)
  | (base, strategy) :: rest =>
    let leftCol := base ++ suffixes.1
    let rightCol := base ++ suffixes.2
    if leftCol ∉ df.cols ∨ rightCol ∉ df.cols then
      resolve_conflicts df rest suffixes
    else if strategy = "left" then
      resolve_conflicts (setColWith df base (fun r => lookupCell r leftCol)) rest suffixes
    else if strategy = "right" then
      resolve_conflicts (setColWith df base (fun r => lookupCell r rightCol)) rest suffixes
    else if strategy = "coalesce" then
      resolve_conflicts
        (setColWith df base
          (fun r => coalesceCell (lookupCell r leftCol) (lookupCell r rightCol)))
        rest suffixes
    else (.error (.unknownStrategy strategy base), df)

/-! ### Audit (`audit_counts`) -/

/-- The summary dictionary `audit_counts` returns; `both` is the matched
count. -/
structure AuditCounts where
  left_only : Nat
  right_only : Nat
  both : Nat
  total_rows : Nat
  deriving Repr, DecidableEq

/-- `audit_counts`: require the `_merge` indicator column, then bucket-count
its values; an unexpected value simply lands in no bucket. -/
def audit_counts (df : DataFrame) : Except DmError AuditCounts :=
  if "_merge" ∈ df.cols then
    .ok { left_only := df.rows.countP (fun r => lookupCell r "_merge" == some "left_only"),
          right_only := df.rows.countP (fun r => lookupCell r "_merge" == some "right_only"),
          both := df.rows.countP (fun r => lookupCell r "_merge" == some "both"),
          total_rows := df.rows.length }
  else .error .noMergeColumn

/-! ### Orchestrator (`quick_merge_with_audit`) -/

/-- The `if dedupe_keys:` step of the orchestrator — Python truthiness
skips it for `None` and for an empty key list. -/
def dedupStep (df : DataFrame) (keysOpt : Option (List String)) :
    Except DmError DataFrame :=
  match keysOpt with
  | some ks => if ks.isEmpty then pure df else drop_dupes_on df ks "last"
  | none => pure df

/-- The `if conflicts:` step of the orchestrator — skipped for `None` and
for an empty mapping, otherwise the resolver's in-place mutation result is
adopted (or its exception propagated). -/
def resolveStep (df : DataFrame) (conflicts : Option (List (String × String)))
    (suffixes : String × String) : Except DmError DataFrame :=
  match conflicts with
  | some cs =>
    if cs.isEmpty then pure df
    else match resolve_conflicts df cs suffixes with
      | (.ok _, dfr) => pure dfr
      | (.error e, _) => throw e
  | none => pure df

/-- `quick_merge_with_audit`, starting from the two already-loaded frames
(`read_csv` file parsing is external I/O): optional keep-last dedup per side,
merge with the indicator enabled, optional conflict resolution, then the
audit. -/
def quick_merge_with_audit (left right : DataFrame) (onKeys : List String) (how : String)
    (dedupeLeftKeys dedupeRightKeys : Option (List String)) (validate : Option String)
    (suffixes : String × String) (conflicts : Option (List (String × String))) :
    Except DmError (DataFrame × AuditCounts) := do
  let l ← dedupStep left dedupeLeftKeys
  let r ← dedupStep right dedupeRightKeys
  let merged ← merge_frames l r onKeys how validate suffixes true
  let merged2 ← resolveStep merged conflicts suffixes
  let counts ← audit_counts merged2
  pure (merged2, counts)

/-! ### Concrete frames used to instantiate the theorems below -/

/-- The conflict-resolution scenario frame: `city_left` null, `city_right`
set. -/
def dfCity : DataFrame :=
  ⟨["city_left", "city_right"], [[("city_left", none), ("city_right", some "NYC")]]⟩

/-- The duplicate-rows scenario frame: two rows sharing the key `id = 1`. -/
def dfDup : DataFrame :=
  ⟨["id", "v"], [[("id", some "1"), ("v", some "x")], [("id", some "1"), ("v", some "y")]]⟩

/-- Left frame of the 3-row outer-join scenario. -/
def dfL1 : DataFrame :=
  ⟨["id", "name"], [[("id", some "1"), ("name", some "A")],
                    [("id", some "2"), ("name", some "B")]]⟩

/-- Right frame of the 3-row outer-join scenario. -/
def dfR1 : DataFrame :=
  ⟨["id", "email"], [[("id", some "2"), ("email", some "b@x.com")],
                     [("id", some "3"), ("email", some "c@x.com")]]⟩

/-- A frame whose only key value repeats, violating a `one_to_one`
contract. -/
def dfDupKey : DataFrame :=
  ⟨["id"], [[("id", some "1")], [("id", some "1")]]⟩

/-- A one-row frame keyed by `id`. -/
def dfOneKey : DataFrame :=
  ⟨["id"], [[("id", some "2")]]⟩

/-- Written from the spec's wording of the cardinality contract, for the
refinement comparison with the code's uniqueness check: some realized key
value of the given frame appears more than once there. -/
def keyDupExists (df : DataFrame) (onKeys : List String) : Prop :=
  ∃ kv ∈ df.rows.map (keyOf onKeys),
    1 < (df.rows.map (keyOf onKeys)).countP (fun kv2 => decide (kv2 = kv))

instance (df : DataFrame) (onKeys : List String) : Decidable (keyDupExists df onKeys) :=
  inferInstanceAs (Decidable (∃ kv ∈ df.rows.map (keyOf onKeys),
    1 < (df.rows.map (keyOf onKeys)).countP (fun kv2 => decide (kv2 = kv))))

/-- Written from the spec's wording: the declared cardinality contract is
violated by the realized key multiplicities — `one_to_one` requires each key
value to appear at most once on both sides, `one_to_many` at most once on
the left, `many_to_one` at most once on the right (`many_to_many` never
fails). -/
def cardViolation (token : String) (left right : DataFrame) (onKeys : List String) : Prop :=
  (token = "one_to_one" ∧ (keyDupExists left onKeys ∨ keyDupExists right onKeys)) ∨
  (token = "one_to_many" ∧ keyDupExists left onKeys) ∨
  (token = "many_to_one" ∧ keyDupExists right onKeys)

instance (token : String) (left right : DataFrame) (onKeys : List String) :
    Decidable (cardViolation token left right onKeys) :=
  inferInstanceAs (Decidable (_ ∨ _ ∨ _))

/-- A concrete always-failing cast, standing in for an `astype` call whose
target dtype rejects the column. -/
def castFail (dtype : String) (cells : List Cell) : Except String (List Cell) :=
  .error "bad"

/-- The two edge characters of a character list are not whitespace. -/
def noEdgeSpace (l : List Char) : Prop :=
  (∀ c, l.head? = some c → pyIsSpaceChar c = false) ∧
  (∀ c, l.getLast? = some c → pyIsSpaceChar c = false)

/-! ### Facts about the column-name cleaner -/

theorem char_toNat_ofNat (n : Nat) (h : n.isValidChar) : (Char.ofNat n).toNat = n := by
  simp [Char.ofNat, h, Char.ofNatAux, Char.toNat, UInt32.toNat]

theorem pyisspace_false_of_toNat {d : Char} (h : 32 < d.toNat) :
    pyIsSpaceChar d = false := by
  simp only [pyIsSpaceChar, Bool.or_eq_false_iff, beq_eq_false_iff_ne, ne_eq]
  refine ⟨⟨⟨⟨⟨?_, ?_⟩, ?_⟩, ?_⟩, ?_⟩, ?_⟩ <;>
    (intro he; subst he; exact absurd h (by decide))

theorem pyLowerChar_of_upper {c : Char} (h : 'A' ≤ c ∧ c ≤ 'Z') :
    (pyLowerChar c).toNat = c.toNat + 32 := by
  have h1 : 65 ≤ c.toNat := h.1
  have h2 : c.toNat ≤ 90 := h.2
  have hv : (c.toNat + 32).isValidChar := by left; omega
  rw [pyLowerChar, if_pos h]
  exact char_toNat_ofNat _ hv

theorem pyLowerChar_of_not_upper {c : Char} (h : ¬ ('A' ≤ c ∧ c ≤ 'Z')) :
    pyLowerChar c = c := by
  rw [pyLowerChar, if_neg h]

theorem pyLowerChar_idem (c : Char) : pyLowerChar (pyLowerChar c) = pyLowerChar c := by
  by_cases h : 'A' ≤ c ∧ c ≤ 'Z'
  · have htn := pyLowerChar_of_upper h
    have h1 : 65 ≤ c.toNat := h.1
    have h2 : c.toNat ≤ 90 := h.2
    apply pyLowerChar_of_not_upper
    rintro ⟨-, hZ⟩
    have hz : (pyLowerChar c).toNat ≤ 90 := hZ
    omega
  · rw [pyLowerChar_of_not_upper h, pyLowerChar_of_not_upper h]

theorem pyIsSpaceChar_pyLowerChar (c : Char) :
    pyIsSpaceChar (pyLowerChar c) = pyIsSpaceChar c := by
  by_cases h : 'A' ≤ c ∧ c ≤ 'Z'
  · have htn := pyLowerChar_of_upper h
    have h1 : 65 ≤ c.toNat := h.1
    rw [pyisspace_false_of_toNat (by omega), pyisspace_false_of_toNat (by omega)]
  · rw [pyLowerChar_of_not_upper h]

theorem replSpaceChar_idem (c : Char) :
    replSpaceChar (replSpaceChar c) = replSpaceChar c := by
  by_cases h : c = ' '
  · subst h; decide
  · have hc : replSpaceChar c = c := by rw [replSpaceChar, if_neg h]
    rw [hc]; exact hc

theorem pyIsSpaceChar_replSpaceChar {c : Char} (h : pyIsSpaceChar (replSpaceChar c) = true) :
    pyIsSpaceChar c = true := by
  by_cases hc : c = ' '
  · subst hc; decide
  · rwa [replSpaceChar, if_neg hc] at h

theorem pyLowerChar_ne_space {c : Char} (hc : c ≠ ' ') : pyLowerChar c ≠ ' ' := by
  intro he
  by_cases h : 'A' ≤ c ∧ c ≤ 'Z'
  · have htn := pyLowerChar_of_upper h
    have h1 : 65 ≤ c.toNat := h.1
    have h32 := congrArg Char.toNat he
    have hsp : Char.toNat ' ' = 32 := rfl
    omega
  · exact hc (by rwa [pyLowerChar_of_not_upper h] at he)

theorem replSpaceChar_lower_core (c : Char) :
    replSpaceChar (pyLowerChar (replSpaceChar (pyLowerChar c))) =
      replSpaceChar (pyLowerChar c) := by
  by_cases hd : pyLowerChar c = ' '
  · rw [hd]; decide
  · have h3 : replSpaceChar (pyLowerChar c) = pyLowerChar c := by
      rw [replSpaceChar, if_neg hd]
    rw [h3, pyLowerChar_idem]
    exact h3

/-! ### Facts about stripping -/

theorem dropWhile_head_false (p : Char → Bool) (l : List Char) :
    ∀ c, (l.dropWhile p).head? = some c → p c = false := by
  induction l with
  | nil => intro c h; simp at h
  | cons a t ih =>
    intro c h
    rw [List.dropWhile_cons] at h
    by_cases ha : p a = true
    · rw [if_pos ha] at h; exact ih c h
    · rw [if_neg ha, List.head?_cons] at h
      have hac := Option.some.inj h
      subst hac
      exact Bool.eq_false_iff.mpr ha

theorem dropWhile_eq_self_of_head (p : Char → Bool) (l : List Char)
    (h : ∀ c, l.head? = some c → p c = false) : l.dropWhile p = l := by
  cases l with
  | nil => rfl
  | cons a t =>
    rw [List.dropWhile_cons, if_neg]
    simp [h a rfl]

theorem isPrefix_head? {l1 l2 : List Char} (h : l1 <+: l2) :
    l1 = [] ∨ l1.head? = l2.head? := by
  cases l1 with
  | nil => exact Or.inl rfl
  | cons a t =>
    rcases h with ⟨r, rfl⟩
    exact Or.inr rfl

theorem listStrip_noEdgeSpace (l : List Char) : noEdgeSpace (listStrip l) := by
  constructor
  · intro c h
    have hpre : (((l.dropWhile pyIsSpaceChar).reverse.dropWhile pyIsSpaceChar).reverse)
        <+: ((l.dropWhile pyIsSpaceChar).reverse).reverse :=
      List.reverse_prefix.mpr (List.dropWhile_suffix _)
    rw [List.reverse_reverse] at hpre
    rcases isPrefix_head? hpre with hnil | hh
    · rw [listStrip, hnil] at h; simp at h
    · rw [listStrip] at h
      rw [hh] at h
      exact dropWhile_head_false _ _ c h
  · intro c h
    rw [listStrip, List.getLast?_reverse] at h
    exact dropWhile_head_false _ _ c h

theorem listStrip_eq_self {l : List Char} (h : noEdgeSpace l) : listStrip l = l := by
  rw [listStrip, dropWhile_eq_self_of_head _ _ h.1,
    dropWhile_eq_self_of_head, List.reverse_reverse]
  intro c hc
  rw [List.head?_reverse] at hc
  exact h.2 c hc

theorem noEdgeSpace_map {f : Char → Char}
    (hf : ∀ c, pyIsSpaceChar (f c) = true → pyIsSpaceChar c = true)
    {l : List Char} (h : noEdgeSpace l) : noEdgeSpace (l.map f) := by
  constructor
  · intro c hc
    rw [List.head?_map] at hc
    cases hh : l.head? with
    | none => rw [hh] at hc; simp at hc
    | some c0 =>
      rw [hh] at hc
      simp only [Option.map_some'] at hc
      have hcc := Option.some.inj hc
      subst hcc
      have h0 := h.1 c0 hh
      exact Bool.eq_false_iff.mpr (fun hcon => by rw [hf c0 hcon] at h0; cases h0)
  · intro c hc
    rw [List.getLast?_map] at hc
    cases hh : l.getLast? with
    | none => rw [hh] at hc; simp at hc
    | some c0 =>
      rw [hh] at hc
      simp only [Option.map_some'] at hc
      have hcc := Option.some.inj hc
      subst hcc
      have h0 := h.2 c0 hh
      exact Bool.eq_false_iff.mpr (fun hcon => by rw [hf c0 hcon] at h0; cases h0)

theorem isSpace_lower_imp (c : Char) (h : pyIsSpaceChar (pyLowerChar c) = true) :
    pyIsSpaceChar c = true := by
  rwa [pyIsSpaceChar_pyLowerChar] at h

theorem map_low_idem (l : List Char) :
    (l.map pyLowerChar).map pyLowerChar = l.map pyLowerChar := by
  rw [List.map_map]
  congr 1
  funext c
  exact pyLowerChar_idem c

theorem map_repl_idem (l : List Char) :
    (l.map replSpaceChar).map replSpaceChar = l.map replSpaceChar := by
  rw [List.map_map]
  congr 1
  funext c
  exact replSpaceChar_idem c

theorem map_rl_core (l : List Char) :
    (((((l.map pyLowerChar).map replSpaceChar).map pyLowerChar).map replSpaceChar) :
      List Char) = (l.map pyLowerChar).map replSpaceChar := by
  simp only [List.map_map]
  congr 1
  funext c
  exact replSpaceChar_lower_core c

theorem cleanChars_idem (st lo sp : Bool) (l : List Char) :
    cleanChars st lo sp (cleanChars st lo sp l) = cleanChars st lo sp l := by
  have hS : ∀ m : List Char, listStrip (listStrip m) = listStrip m :=
    fun m => listStrip_eq_self (listStrip_noEdgeSpace m)
  have hSlow : ∀ m : List Char, listStrip ((listStrip m).map pyLowerChar)
      = (listStrip m).map pyLowerChar :=
    fun m => listStrip_eq_self (noEdgeSpace_map isSpace_lower_imp (listStrip_noEdgeSpace m))
  have hSrepl : ∀ m : List Char, listStrip ((listStrip m).map replSpaceChar)
      = (listStrip m).map replSpaceChar :=
    fun m => listStrip_eq_self
      (noEdgeSpace_map (fun c h => pyIsSpaceChar_replSpaceChar h) (listStrip_noEdgeSpace m))
  have hSlr : ∀ m : List Char, listStrip (((listStrip m).map pyLowerChar).map replSpaceChar)
      = ((listStrip m).map pyLowerChar).map replSpaceChar :=
    fun m => listStrip_eq_self
      (noEdgeSpace_map (fun c h => pyIsSpaceChar_replSpaceChar h)
        (noEdgeSpace_map isSpace_lower_imp (listStrip_noEdgeSpace m)))
  cases st <;> cases lo <;> cases sp <;>
    simp only [cleanChars, if_true, if_false, Bool.false_eq_true, ite_true, ite_false]
  · exact map_repl_idem l
  · exact map_low_idem l
  · exact map_rl_core l
  · rw [hS]
  · rw [hSrepl, map_repl_idem]
  · rw [hSlow, map_low_idem]
  · rw [hSlr, map_rl_core]

theorem cleanName_idem (st lo sp : Bool) (s : String) :
    cleanName st lo sp (cleanName st lo sp s) = cleanName st lo sp s := by
  show String.mk (cleanChars st lo sp (cleanChars st lo sp s.data))
      = String.mk (cleanChars st lo sp s.data)
  rw [cleanChars_idem]

/-- C9: for every table and every setting of the three switches (trim,
lowercase, space-to-underscore), applying `normalize_columns` twice yields
the same table as applying it once, and the cell data of every row is
untouched by normalization (only the labels change). -/
theorem normalize_columns_idempotent_and_data_untouched
    (df : DataFrame) (lower strip spaces : Bool) :
    normalize_columns (normalize_columns df lower strip spaces) lower strip spaces
      = normalize_columns df lower strip spaces ∧
    (normalize_columns df lower strip spaces).rows.map (fun r => r.map Prod.snd)
      = df.rows.map (fun r => r.map Prod.snd) := by
  constructor
  · simp only [normalize_columns, List.map_map]
    rw [DataFrame.mk.injEq]
    constructor
    · congr 1
      funext c
      exact cleanName_idem strip lower spaces c
    · congr 1
      funext r
      show (r.map fun p => (cleanName strip lower spaces p.1, p.2)).map
          (fun p => (cleanName strip lower spaces p.1, p.2))
        = r.map fun p => (cleanName strip lower spaces p.1, p.2)
      rw [List.map_map]
      congr 1
      funext p
      show (cleanName strip lower spaces (cleanName strip lower spaces p.1), p.2)
        = (cleanName strip lower spaces p.1, p.2)
      rw [cleanName_idem]
  · simp only [normalize_columns, List.map_map]
    congr 1
    funext r
    show (r.map fun p => (cleanName strip lower spaces p.1, p.2)).map Prod.snd = r.map Prod.snd
    rw [List.map_map]
    congr 1

/-! ### Facts about row cell assignment -/

theorem lookupVal_map_overwrite (r : Row) (c : String) (v : Cell)
    (h : c ∈ r.map Prod.fst) :
    lookupVal (r.map (fun p => if p.1 = c then (p.1, v) else p)) c = some v := by
  induction r with
  | nil => simp at h
  | cons p t ih =>
    obtain ⟨k, w⟩ := p
    simp only [List.map_cons, List.mem_cons] at h
    by_cases hp : k = c
    · subst hp
      rw [List.map_cons,
        show (if (k, w).1 = k then ((k, w).1, v) else (k, w)) = (k, v) from if_pos rfl,
        lookupVal, if_pos rfl]
    · rw [List.map_cons,
        show (if (k, w).1 = c then ((k, w).1, v) else (k, w)) = (k, w) from if_neg hp,
        lookupVal, if_neg hp]
      apply ih
      rcases h with h | h
      · exact absurd h.symm hp
      · exact h

theorem lookupVal_append_single (r : Row) (c : String) (v : Cell)
    (h : c ∉ r.map Prod.fst) :
    lookupVal (r ++ [(c, v)]) c = some v := by
  induction r with
  | nil => simp [lookupVal]
  | cons p t ih =>
    obtain ⟨k, w⟩ := p
    simp only [List.map_cons, List.mem_cons] at h
    push_neg at h
    rw [List.cons_append, lookupVal, if_neg (fun he : k = c => h.1 he.symm)]
    exact ih h.2

theorem lookupVal_setCell_self (r : Row) (c : String) (v : Cell) :
    lookupVal (setCell r c v) c = some v := by
  rw [setCell]
  by_cases h : c ∈ r.map Prod.fst
  · rw [if_pos h]; exact lookupVal_map_overwrite r c v h
  · rw [if_neg h]; exact lookupVal_append_single r c v h

theorem lookupCell_setCell_self (r : Row) (c : String) (v : Cell) :
    lookupCell (setCell r c v) c = v := by
  rw [lookupCell, lookupVal_setCell_self]; rfl

theorem lookupVal_map_overwrite_other (r : Row) (c c2 : String) (v : Cell) (h : c2 ≠ c) :
    lookupVal (r.map (fun p => if p.1 = c then (p.1, v) else p)) c2 = lookupVal r c2 := by
  induction r with
  | nil => rfl
  | cons p t ih =>
    obtain ⟨k, w⟩ := p
    by_cases hp : k = c
    · subst hp
      rw [List.map_cons,
        show (if (k, w).1 = k then ((k, w).1, v) else (k, w)) = (k, v) from if_pos rfl,
        lookupVal, lookupVal,
        if_neg (fun he : k = c2 => h (he.symm)), if_neg (fun he : k = c2 => h (he.symm))]
      exact ih
    · rw [List.map_cons,
        show (if (k, w).1 = c then ((k, w).1, v) else (k, w)) = (k, w) from if_neg hp,
        lookupVal, lookupVal]
      by_cases hpc : k = c2
      · rw [if_pos hpc, if_pos hpc]
      · rw [if_neg hpc, if_neg hpc]
        exact ih

theorem lookupVal_append_single_other (r : Row) (c c2 : String) (v : Cell) (h : c2 ≠ c) :
    lookupVal (r ++ [(c, v)]) c2 = lookupVal r c2 := by
  induction r with
  | nil => simp [lookupVal, if_neg (fun he : c = c2 => h he.symm)]
  | cons p t ih =>
    obtain ⟨k, w⟩ := p
    rw [List.cons_append, lookupVal, lookupVal]
    by_cases hpc : k = c2
    · rw [if_pos hpc, if_pos hpc]
    · rw [if_neg hpc, if_neg hpc]
      exact ih

theorem lookupVal_setCell_other (r : Row) (c c2 : String) (v : Cell) (h : c2 ≠ c) :
    lookupVal (setCell r c v) c2 = lookupVal r c2 := by
  rw [setCell]
  by_cases hm : c ∈ r.map Prod.fst
  · rw [if_pos hm]; exact lookupVal_map_overwrite_other r c c2 v h
  · rw [if_neg hm]; exact lookupVal_append_single_other r c c2 v h

theorem lookupCell_setCell_other (r : Row) (c c2 : String) (v : Cell) (h : c2 ≠ c) :
    lookupCell (setCell r c v) c2 = lookupCell r c2 := by
  rw [lookupCell, lookupVal_setCell_other r c c2 v h]; rfl

/-! ### Facts about `coalesceCell` -/

theorem coalesceCell_of_isSome {l r : Cell} (h : l.isSome) : coalesceCell l r = l :=
  if_pos h

theorem coalesceCell_of_none {r : Cell} : coalesceCell none r = r := by
  rw [coalesceCell, if_neg]
  simp

theorem coalesceCell_eq_none_iff (l r : Cell) :
    coalesceCell l r = none ↔ l = none ∧ r = none := by
  cases l <;> simp [coalesceCell]

/-- C3: for every merged table containing both suffixed columns of a base
name mapped to the coalesce strategy, `resolve_conflicts` succeeds, its
result's rows are exactly the input rows with the reconciled base column
assigned (that is `setColWith`), and row by row the reconciled base value is
the left-suffixed value when that is non-null and otherwise the
right-suffixed value; it is null exactly when both suffixed values are
null. -/
theorem resolve_conflicts_coalesce_correct (df : DataFrame) (base : String)
    (sfx : String × String) (hl : base ++ sfx.1 ∈ df.cols) (hr : base ++ sfx.2 ∈ df.cols) :
    resolve_conflicts df [(base, "coalesce")] sfx
      = (.ok (), setColWith df base
          (fun r => coalesceCell (lookupCell r (base ++ sfx.1)) (lookupCell r (base ++ sfx.2)))) ∧
    ∀ r ∈ df.rows,
      ((lookupCell r (base ++ sfx.1)).isSome →
        lookupCell (setCell r base (coalesceCell (lookupCell r (base ++ sfx.1))
            (lookupCell r (base ++ sfx.2)))) base
          = lookupCell r (base ++ sfx.1)) ∧
      (lookupCell r (base ++ sfx.1) = none →
        lookupCell (setCell r base (coalesceCell (lookupCell r (base ++ sfx.1))
            (lookupCell r (base ++ sfx.2)))) base
          = lookupCell r (base ++ sfx.2)) ∧
      (lookupCell (setCell r base (coalesceCell (lookupCell r (base ++ sfx.1))
            (lookupCell r (base ++ sfx.2)))) base = none
        ↔ lookupCell r (base ++ sfx.1) = none ∧ lookupCell r (base ++ sfx.2) = none) := by
  constructor
  · rw [resolve_conflicts]
    simp only [if_neg (show ¬ (base ++ sfx.1 ∉ df.cols ∨ base ++ sfx.2 ∉ df.cols) by
        push_neg; exact ⟨hl, hr⟩),
      if_neg (show ¬ ("coalesce" : String) = "left" by decide),
      if_neg (show ¬ ("coalesce" : String) = "right" by decide),
      if_pos (show ("coalesce" : String) = "coalesce" from rfl)]
    simp [resolve_conflicts]
  · intro r hrr
    refine ⟨?_, ?_, ?_⟩
    · intro hsome
      rw [lookupCell_setCell_self]
      exact coalesceCell_of_isSome hsome
    · intro hnone
      rw [lookupCell_setCell_self, hnone]
      exact coalesceCell_of_none
    · rw [lookupCell_setCell_self]
      exact coalesceCell_eq_none_iff _ _

/-- Witness: `resolve_conflicts_coalesce_correct` applied to the spec's
coalesce scenario frame. -/
theorem resolve_conflicts_coalesce_correct_witness :
    ("city" ++ "_left" ∈ dfCity.cols) ∧ ("city" ++ "_right" ∈ dfCity.cols) ∧
    (resolve_conflicts dfCity [("city", "coalesce")] ("_left", "_right")
      = (.ok (), setColWith dfCity "city"
          (fun r => coalesceCell (lookupCell r ("city" ++ "_left"))
            (lookupCell r ("city" ++ "_right")))) ∧
     ∀ r ∈ dfCity.rows,
      ((lookupCell r ("city" ++ "_left")).isSome →
        lookupCell (setCell r "city" (coalesceCell (lookupCell r ("city" ++ "_left"))
            (lookupCell r ("city" ++ "_right")))) "city"
          = lookupCell r ("city" ++ "_left")) ∧
      (lookupCell r ("city" ++ "_left") = none →
        lookupCell (setCell r "city" (coalesceCell (lookupCell r ("city" ++ "_left"))
            (lookupCell r ("city" ++ "_right")))) "city"
          = lookupCell r ("city" ++ "_right")) ∧
      (lookupCell (setCell r "city" (coalesceCell (lookupCell r ("city" ++ "_left"))
            (lookupCell r ("city" ++ "_right")))) "city" = none
        ↔ lookupCell r ("city" ++ "_left") = none ∧
          lookupCell r ("city" ++ "_right") = none)) :=
  ⟨by decide, by decide,
    resolve_conflicts_coalesce_correct dfCity "city" ("_left", "_right")
      (by decide) (by decide)⟩

/-! ### Facts about `setColWith` and `resolve_conflicts` -/

theorem setColWith_cols_mem {df : DataFrame} {out : String} {f : Row → Cell} {c : String}
    (h : c ∈ df.cols) : c ∈ (setColWith df out f).cols := by
  rw [setColWith]
  by_cases ho : out ∈ df.cols
  · rw [if_pos ho]; exact h
  · rw [if_neg ho]; exact List.mem_append_left _ h

/-- If some spec entry has an unrecognized strategy and both of its suffixed
columns are present, the walk raises `ValueError` at the first offending
entry it reaches. -/
theorem resolve_conflicts_unknown_aux (spec : List (String × String)) :
    ∀ (df : DataFrame) (sfx : String × String) (base strategy : String),
    (base, strategy) ∈ spec →
    strategy ≠ "left" → strategy ≠ "right" → strategy ≠ "coalesce" →
    base ++ sfx.1 ∈ df.cols → base ++ sfx.2 ∈ df.cols →
    ∃ b s df2, resolve_conflicts df spec sfx = (.error (.unknownStrategy s b), df2) ∧
      (b, s) ∈ spec ∧ s ≠ "left" ∧ s ≠ "right" ∧ s ≠ "coalesce" := by
  induction spec with
  | nil => intro df sfx base strategy hmem; simp at hmem
  | cons e rest ih =>
    intro df sfx base strategy hmem h1 h2 h3 hl hr
    obtain ⟨b0, s0⟩ := e
    simp only [resolve_conflicts]
    by_cases hcols : b0 ++ sfx.1 ∉ df.cols ∨ b0 ++ sfx.2 ∉ df.cols
    · rw [if_pos hcols]
      rcases List.mem_cons.mp hmem with he | he
      · rw [Prod.mk.injEq] at he
        obtain ⟨rfl, rfl⟩ := he
        rcases hcols with hc | hc
        · exact absurd hl hc
        · exact absurd hr hc
      · obtain ⟨b, s, df2, hres, hmem2, hs1, hs2, hs3⟩ :=
          ih df sfx base strategy he h1 h2 h3 hl hr
        exact ⟨b, s, df2, hres, List.mem_cons_of_mem _ hmem2, hs1, hs2, hs3⟩
    · rw [if_neg hcols]
      by_cases hb1 : s0 = "left"
      · rw [if_pos hb1]
        have hmem2 : (base, strategy) ∈ rest := by
          rcases List.mem_cons.mp hmem with he | he
          · rw [Prod.mk.injEq] at he
            obtain ⟨rfl, rfl⟩ := he
            exact absurd hb1 h1
          · exact he
        obtain ⟨b, s, df2, hres, hmem3, hs1, hs2, hs3⟩ :=
          ih _ sfx base strategy hmem2 h1 h2 h3
            (setColWith_cols_mem hl) (setColWith_cols_mem hr)
        exact ⟨b, s, df2, hres, List.mem_cons_of_mem _ hmem3, hs1, hs2, hs3⟩
      · rw [if_neg hb1]
        by_cases hb2 : s0 = "right"
        · rw [if_pos hb2]
          have hmem2 : (base, strategy) ∈ rest := by
            rcases List.mem_cons.mp hmem with he | he
            · rw [Prod.mk.injEq] at he
              obtain ⟨rfl, rfl⟩ := he
              exact absurd hb2 h2
            · exact he
          obtain ⟨b, s, df2, hres, hmem3, hs1, hs2, hs3⟩ :=
            ih _ sfx base strategy hmem2 h1 h2 h3
              (setColWith_cols_mem hl) (setColWith_cols_mem hr)
          exact ⟨b, s, df2, hres, List.mem_cons_of_mem _ hmem3, hs1, hs2, hs3⟩
        · rw [if_neg hb2]
          by_cases hb3 : s0 = "coalesce"
          · rw [if_pos hb3]
            have hmem2 : (base, strategy) ∈ rest := by
              rcases List.mem_cons.mp hmem with he | he
              · rw [Prod.mk.injEq] at he
                obtain ⟨rfl, rfl⟩ := he
                exact absurd hb3 h3
              · exact he
            obtain ⟨b, s, df2, hres, hmem3, hs1, hs2, hs3⟩ :=
              ih _ sfx base strategy hmem2 h1 h2 h3
                (setColWith_cols_mem hl) (setColWith_cols_mem hr)
            exact ⟨b, s, df2, hres, List.mem_cons_of_mem _ hmem3, hs1, hs2, hs3⟩
          · rw [if_neg hb3]
            exact ⟨b0, s0, df, rfl, List.mem_cons_self _ _, hb1, hb2, hb3⟩

/-- C4 counterexample: a Conflict Spec mapping the base column `city` to the
unrecognized strategy `middle`, over a merged table that has no
`city_left`/`city_right` pair, is skipped silently — `resolve_conflicts`
returns success and the unchanged table instead of failing with a validation
error. -/
theorem resolve_conflicts_unknown_strategy_counterexample :
    resolve_conflicts ⟨["x"], [[("x", some "1")]]⟩ [("city", "middle")] ("_left", "_right")
      = (.ok (), ⟨["x"], [[("x", some "1")]]⟩) := rfl

/-- C4 (amended): if the merged table contains both suffixed columns of some
base name mapped to a strategy string outside the recognized set, then
`resolve_conflicts` fails with a validation error carrying an offending base
column together with its illegal strategy value (the first such entry the
walk reaches); spec entries whose suffixed column pair is absent are skipped
silently rather than rejected, and the table state returned with the error
retains the columns added by recognized-strategy entries processed before
the failure. -/
theorem resolve_conflicts_unknown_strategy_fails (df : DataFrame)
    (spec : List (String × String)) (sfx : String × String) (base strategy : String)
    (hmem : (base, strategy) ∈ spec)
    (h1 : strategy ≠ "left") (h2 : strategy ≠ "right") (h3 : strategy ≠ "coalesce")
    (hl : base ++ sfx.1 ∈ df.cols) (hr : base ++ sfx.2 ∈ df.cols) :
    ∃ b s df2, resolve_conflicts df spec sfx = (.error (.unknownStrategy s b), df2) ∧
      (b, s) ∈ spec ∧ s ≠ "left" ∧ s ≠ "right" ∧ s ≠ "coalesce" :=
  resolve_conflicts_unknown_aux spec df sfx base strategy hmem h1 h2 h3 hl hr

/-- Witness: `resolve_conflicts_unknown_strategy_fails` at the spec's
unknown-strategy scenario, with the suffixed pair present. -/
theorem resolve_conflicts_unknown_strategy_fails_witness :
    (("city", "middle") ∈ [(("city" : String), ("middle" : String))]) ∧
    (∃ b s df2,
      resolve_conflicts dfCity [("city", "middle")] ("_left", "_right")
        = (.error (.unknownStrategy s b), df2) ∧
      (b, s) ∈ [(("city" : String), ("middle" : String))] ∧
      s ≠ "left" ∧ s ≠ "right" ∧ s ≠ "coalesce") :=
  ⟨by decide,
    resolve_conflicts_unknown_strategy_fails dfCity [("city", "middle")] ("_left", "_right")
      "city" "middle" (by decide) (by decide) (by decide) (by decide) (by decide) (by decide)⟩

/-! ### Facts about keep-last de-duplication -/

theorem getLast?_cons_ne_nil {α : Type} (a : α) {l : List α} (h : l ≠ []) :
    (a :: l).getLast? = l.getLast? := by
  cases l with
  | nil => exact absurd rfl h
  | cons b t => exact List.getLast?_cons_cons

theorem dedupKeepLast_mem {α κ : Type} [DecidableEq κ] (key : α → κ) (l : List α) :
    ∀ a ∈ dedupKeepLast key l, a ∈ l := by
  induction l with
  | nil => intro a ha; simp [dedupKeepLast] at ha
  | cons r rs ih =>
    intro a ha
    rw [dedupKeepLast] at ha
    by_cases hany : rs.any (fun r2 => decide (key r2 = key r)) = true
    · rw [if_pos hany] at ha
      exact List.mem_cons_of_mem _ (ih a ha)
    · rw [if_neg hany] at ha
      rcases List.mem_cons.mp ha with h | h
      · exact h ▸ List.mem_cons_self _ _
      · exact List.mem_cons_of_mem _ (ih a h)

theorem dedupKeepLast_filter {α κ : Type} [DecidableEq κ] (key : α → κ) (l : List α)
    (kv : κ) :
    (dedupKeepLast key l).filter (fun a => decide (key a = kv))
      = ((l.filter (fun a => decide (key a = kv))).getLast?).toList := by
  induction l with
  | nil => rfl
  | cons r rs ih =>
    rw [dedupKeepLast]
    by_cases hany : rs.any (fun r2 => decide (key r2 = key r)) = true
    · rw [if_pos hany, List.filter_cons]
      by_cases hk : key r = kv
      · rw [if_pos (by simp [hk])]
        have hne : rs.filter (fun a => decide (key a = kv)) ≠ [] := by
          rcases List.any_eq_true.mp hany with ⟨r2, hr2, hkey⟩
          have hk2 : key r2 = kv := (of_decide_eq_true hkey).trans hk
          intro hnil
          exact (List.filter_eq_nil_iff.mp hnil r2 hr2) (decide_eq_true hk2)
        rw [getLast?_cons_ne_nil _ hne]
        exact ih
      · rw [if_neg (by simp [hk])]
        exact ih
    · rw [if_neg hany, List.filter_cons, List.filter_cons]
      have hnone : ∀ r2 ∈ rs, key r2 ≠ key r := by
        intro r2 hr2 hkey
        exact (List.any_eq_false.mp (Bool.eq_false_iff.mpr hany) r2 hr2)
          (decide_eq_true hkey)
      by_cases hk : key r = kv
      · rw [if_pos (by simp [hk]), if_pos (by simp [hk])]
        have hfil : rs.filter (fun a => decide (key a = kv)) = [] := by
          rw [List.filter_eq_nil_iff]
          intro a ha hdec
          exact hnone a ha ((of_decide_eq_true hdec).trans hk.symm)
        have hfil2 : (dedupKeepLast key rs).filter (fun a => decide (key a = kv)) = [] := by
          rw [ih, hfil]; rfl
        rw [hfil, hfil2]
        rfl
      · rw [if_neg (by simp [hk]), if_neg (by simp [hk])]
        exact ih

theorem dedupKeepLast_idem {α κ : Type} [DecidableEq κ] (key : α → κ) (l : List α) :
    dedupKeepLast key (dedupKeepLast key l) = dedupKeepLast key l := by
  induction l with
  | nil => rfl
  | cons r rs ih =>
    rw [dedupKeepLast]
    by_cases hany : rs.any (fun r2 => decide (key r2 = key r)) = true
    · rw [if_pos hany]
      exact ih
    · rw [if_neg hany]
      have hnone : ∀ r2 ∈ rs, key r2 ≠ key r := by
        intro r2 hr2 hkey
        exact (List.any_eq_false.mp (Bool.eq_false_iff.mpr hany) r2 hr2)
          (decide_eq_true hkey)
      rw [dedupKeepLast, if_neg, ih]
      intro hco
      rcases List.any_eq_true.mp hco with ⟨a, ha, hdec⟩
      exact hnone a (dedupKeepLast_mem key rs a ha) (of_decide_eq_true hdec)

/-- C7: for every table and non-empty key tuple whose columns exist in the
table, `drop_dupes_on(df, keys, keep="last")` succeeds and returns a table
with, for every key value occurring in the input, exactly one row — the
last-occurring input row with that key value (the filter of the result at
any key value is the last element of the input's filter); and running
`drop_dupes_on` again with the same arguments returns the result unchanged
(idempotence). -/
theorem drop_dupes_on_keep_last_correct (df : DataFrame) (keys : List String)
    (hne : keys ≠ []) (hk : ∀ k ∈ keys, k ∈ df.cols) :
    ∃ df2, drop_dupes_on df keys "last" = .ok df2 ∧
      df2.cols = df.cols ∧
      (∀ kv, df2.rows.filter (fun r => decide (keyOf keys r = kv))
        = ((df.rows.filter (fun r => decide (keyOf keys r = kv))).getLast?).toList) ∧
      (∀ kv, (∃ r ∈ df.rows, keyOf keys r = kv) →
        df2.rows.countP (fun r => decide (keyOf keys r = kv)) = 1) ∧
      drop_dupes_on df2 keys "last" = .ok df2 := by
  have hmiss : keys.filter (fun k => decide (k ∉ df.cols)) = [] := by
    rw [List.filter_eq_nil_iff]
    intro k hk2
    simp [hk k hk2]
  refine ⟨⟨df.cols, dedupKeepLast (keyOf keys) df.rows⟩, ?_, rfl, ?_, ?_, ?_⟩
  · rw [drop_dupes_on]
    simp [hmiss]
    exact hk
  · intro kv
    exact dedupKeepLast_filter (keyOf keys) df.rows kv
  · intro kv ⟨r, hrr, hkey⟩
    rw [List.countP_eq_length_filter, dedupKeepLast_filter]
    have hne2 : df.rows.filter (fun r => decide (keyOf keys r = kv)) ≠ [] := by
      intro hnil
      exact (List.filter_eq_nil_iff.mp hnil r hrr) (decide_eq_true hkey)
    rcases Option.isSome_iff_exists.mp (List.getLast?_isSome.mpr hne2) with ⟨a, ha⟩
    rw [ha]
    rfl
  · rw [drop_dupes_on]
    simp [hmiss, dedupKeepLast_idem]
    exact hk

/-- Witness: `drop_dupes_on_keep_last_correct` at the spec's duplicate-rows
scenario. -/
theorem drop_dupes_on_keep_last_correct_witness :
    ((["id"] : List String) ≠ []) ∧ (∀ k ∈ (["id"] : List String), k ∈ dfDup.cols) ∧
    (∃ df2, drop_dupes_on dfDup ["id"] "last" = .ok df2 ∧
      df2.cols = dfDup.cols ∧
      (∀ kv, df2.rows.filter (fun r => decide (keyOf ["id"] r = kv))
        = ((dfDup.rows.filter (fun r => decide (keyOf ["id"] r = kv))).getLast?).toList) ∧
      (∀ kv, (∃ r ∈ dfDup.rows, keyOf ["id"] r = kv) →
        df2.rows.countP (fun r => decide (keyOf ["id"] r = kv)) = 1) ∧
      drop_dupes_on df2 ["id"] "last" = .ok df2) :=
  ⟨by decide, by decide,
    drop_dupes_on_keep_last_correct dfDup ["id"] (by decide) (by decide)⟩

/-! ### Facts about the merge engine's validation -/

/-- C6: for every pair of input frames and key tuple containing a column
absent from either input, `merge_frames` fails — before any join work, with
no frame returned — with the lookup error carrying the lists of missing
columns per side, and the absent column appears in the corresponding
list. -/
theorem merge_frames_missing_keys (left right : DataFrame) (onKeys : List String)
    (how : String) (validate : Option String) (suffixes : String × String)
    (indicator : Bool) (k : String) (hk : k ∈ onKeys)
    (hmiss : k ∉ left.cols ∨ k ∉ right.cols) :
    merge_frames left right onKeys how validate suffixes indicator
      = .error (.joinKeysMissing (onKeys.filter (fun k => decide (k ∉ left.cols)))
          (onKeys.filter (fun k => decide (k ∉ right.cols)))) ∧
    (k ∉ left.cols → k ∈ onKeys.filter (fun k => decide (k ∉ left.cols))) ∧
    (k ∉ right.cols → k ∈ onKeys.filter (fun k => decide (k ∉ right.cols))) := by
  have hml : k ∉ left.cols → k ∈ onKeys.filter (fun k => decide (k ∉ left.cols)) :=
    fun h => List.mem_filter.mpr ⟨hk, decide_eq_true h⟩
  have hmr : k ∉ right.cols → k ∈ onKeys.filter (fun k => decide (k ∉ right.cols)) :=
    fun h => List.mem_filter.mpr ⟨hk, decide_eq_true h⟩
  refine ⟨?_, hml, hmr⟩
  rw [merge_frames]
  rw [if_pos]
  rcases hmiss with h | h
  · exact Or.inl (List.ne_nil_of_mem (hml h))
  · exact Or.inr (List.ne_nil_of_mem (hmr h))

/-- Witness: `merge_frames_missing_keys` where the key `id` is missing from
the right frame. -/
theorem merge_frames_missing_keys_witness :
    (("id" : String) ∈ (["id"] : List String)) ∧
    (("id" : String) ∉ dfL1.cols ∨ ("id" : String) ∉ dfCity.cols) ∧
    (merge_frames dfL1 dfCity ["id"] "inner" none ("_left", "_right") true
      = .error (.joinKeysMissing ((["id"] : List String).filter (fun k => decide (k ∉ dfL1.cols)))
          ((["id"] : List String).filter (fun k => decide (k ∉ dfCity.cols)))) ∧
     (("id" : String) ∉ dfL1.cols → ("id" : String) ∈ (["id"] : List String).filter (fun k => decide (k ∉ dfL1.cols))) ∧
     (("id" : String) ∉ dfCity.cols → ("id" : String) ∈ (["id"] : List String).filter (fun k => decide (k ∉ dfCity.cols)))) :=
  ⟨by decide, by decide,
    merge_frames_missing_keys dfL1 dfCity ["id"] "inner" none ("_left", "_right") true
      "id" (by decide) (by decide)⟩

theorem keyDupExists_iff (df : DataFrame) (onKeys : List String) :
    keyDupExists df onKeys ↔ keysUnique df.rows onKeys = false := by
  have hcc : ∀ kv, (df.rows.map (keyOf onKeys)).countP (fun kv2 => decide (kv2 = kv))
      = @List.count _ instBEqOfDecidableEq kv (df.rows.map (keyOf onKeys)) :=
    fun kv => rfl
  rw [keysUnique, decide_eq_false_iff_not, ← List.exists_duplicate_iff_not_nodup]
  constructor
  · rintro ⟨kv, hmem, hcount⟩
    rw [hcc kv] at hcount
    exact ⟨kv, List.duplicate_iff_two_le_count.mpr (by omega)⟩
  · rintro ⟨kv, hdup⟩
    have hcount := List.duplicate_iff_two_le_count.mp hdup
    refine ⟨kv, hdup.mem, ?_⟩
    rw [hcc kv]
    omega

theorem checkCardinality_of_violation {token : String} {left right : DataFrame}
    {onKeys : List String} (hviol : cardViolation token left right onKeys) :
    checkCardinality token (keysUnique left.rows onKeys) (keysUnique right.rows onKeys)
      = some false := by
  rcases hviol with ⟨ht, hd | hd⟩ | ⟨ht, hd⟩ | ⟨ht, hd⟩ <;> subst ht
  · have hu := (keyDupExists_iff left onKeys).mp hd
    simp [checkCardinality, hu]
  · have hu := (keyDupExists_iff right onKeys).mp hd
    simp [checkCardinality, hu]
  · have hu := (keyDupExists_iff left onKeys).mp hd
    simp [checkCardinality, hu]
  · have hu := (keyDupExists_iff right onKeys).mp hd
    simp [checkCardinality, hu]

/-- C5: when a recognized cardinality token is specified and the realized
key multiplicities of the two inputs violate the declared contract (in the
spec's sense, `cardViolation`), `merge_frames` fails with the validation
error and no merge result is returned. -/
theorem merge_frames_cardinality_violation (left right : DataFrame)
    (onKeys : List String) (how : String) (suffixes : String × String) (token : String)
    (hk : ∀ k ∈ onKeys, k ∈ left.cols ∧ k ∈ right.cols)
    (hhow : how = "inner" ∨ how = "left" ∨ how = "right" ∨ how = "outer")
    (hind : "_merge" ∉ left.cols ∧ "_merge" ∉ right.cols)
    (hviol : cardViolation token left right onKeys) :
    merge_frames left right onKeys how (some token) suffixes true
      = .error (.cardinalityViolated token) := by
  have hmissL : onKeys.filter (fun k => decide (k ∉ left.cols)) = [] := by
    rw [List.filter_eq_nil_iff]
    intro k hk2
    simp [(hk k hk2).1]
  have hmissR : onKeys.filter (fun k => decide (k ∉ right.cols)) = [] := by
    rw [List.filter_eq_nil_iff]
    intro k hk2
    simp [(hk k hk2).2]
  rw [merge_frames]
  simp only [hmissL, hmissR]
  rw [if_neg (by simp)]
  rw [if_neg (not_not_intro hhow)]
  rw [if_neg (fun h => h.2.elim (fun hm => hind.1 hm) (fun hm => hind.2 hm))]
  rw [checkCardinality_of_violation hviol]

/-- Witness: `merge_frames_cardinality_violation` under `one_to_one` with a
duplicated key value on the left. -/
theorem merge_frames_cardinality_violation_witness :
    (∀ k ∈ (["id"] : List String), k ∈ dfDupKey.cols ∧ k ∈ dfOneKey.cols) ∧
    (("left" : String) = "inner" ∨ ("left" : String) = "left" ∨
      ("left" : String) = "right" ∨ ("left" : String) = "outer") ∧
    (("_merge" : String) ∉ dfDupKey.cols ∧ ("_merge" : String) ∉ dfOneKey.cols) ∧
    cardViolation "one_to_one" dfDupKey dfOneKey ["id"] ∧
    merge_frames dfDupKey dfOneKey ["id"] "left" (some "one_to_one") ("_left", "_right") true
      = .error (.cardinalityViolated "one_to_one") :=
  ⟨by decide, by decide, by decide, by decide,
    merge_frames_cardinality_violation dfDupKey dfOneKey ["id"] "left" ("_left", "_right")
      "one_to_one" (by decide) (by decide) (by decide) (by decide)⟩

/-! ### Facts about merge output rows -/

theorem lookupVal_isSome_of_mem_keys {r : Row} {k : String} (h : k ∈ r.map Prod.fst) :
    (lookupVal r k).isSome := by
  induction r with
  | nil => simp at h
  | cons p t ih =>
    obtain ⟨k0, v0⟩ := p
    rw [lookupVal]
    by_cases hk0 : k0 = k
    · rw [if_pos hk0]; rfl
    · rw [if_neg hk0]
      apply ih
      simp only [List.map_cons, List.mem_cons] at h
      rcases h with h | h
      · exact absurd h.symm hk0
      · exact h

theorem some_getD_of_isSome {o : Option Cell} (h : o.isSome) {d : Cell} :
    some (o.getD d) = o := by
  cases o with
  | none => simp at h
  | some x => rfl

theorem lookupVal_keyBlock (onKeys : List String) (f : String → Cell) (rest : Row)
    {k : String} (hk : k ∈ onKeys) :
    lookupVal (onKeys.map (fun k2 => (k2, f k2)) ++ rest) k = some (f k) := by
  induction onKeys with
  | nil => simp at hk
  | cons a t ih =>
    rw [List.map_cons, List.cons_append, lookupVal]
    by_cases ha : a = k
    · subst ha
      rw [if_pos rfl]
    · rw [if_neg ha]
      rcases List.mem_cons.mp hk with h | h
      · exact absurd h.symm ha
      · exact ih h

theorem lookupVal_append_right (l1 l2 : Row) (c : String)
    (h : ∀ p ∈ l1, p.1 ≠ c) : lookupVal (l1 ++ l2) c = lookupVal l2 c := by
  induction l1 with
  | nil => rfl
  | cons p t ih =>
    obtain ⟨k0, v0⟩ := p
    rw [List.cons_append, lookupVal,
      if_neg (h (k0, v0) (List.mem_cons_self _ _) : (k0, v0).1 ≠ c)]
    exact ih (fun p hp => h p (List.mem_cons_of_mem _ hp))

theorem keyOf_combineBoth (ms : MergeSpec) (la rb : Row)
    (hla : ∀ k ∈ ms.onKeys, (lookupVal la k).isSome) :
    keyOf ms.onKeys (ms.combineBoth la rb) = keyOf ms.onKeys la := by
  rw [MergeSpec.combineBoth, keyOf, keyOf]
  apply List.map_congr_left
  intro k hk
  rw [List.append_assoc, List.append_assoc,
    lookupVal_keyBlock ms.onKeys (fun k2 => lookupCell la k2) _ hk, lookupCell]
  exact some_getD_of_isSome (hla k hk)

/-- Inverting a successful `merge_frames` call: the checks all passed and
the result is the joined frame. -/
theorem merge_frames_ok_inv {left right : DataFrame} {onKeys : List String}
    {how : String} {validate : Option String} {suffixes : String × String} {m : DataFrame}
    (hok : merge_frames left right onKeys how validate suffixes true = .ok m) :
    m = ⟨(MergeSpec.ofArgs left right onKeys suffixes true).outCols,
         (MergeSpec.ofArgs left right onKeys suffixes true).rowsFor how left.rows right.rows⟩
    ∧ (how = "inner" ∨ how = "left" ∨ how = "right" ∨ how = "outer")
    ∧ "_merge" ∉ left.cols ∧ "_merge" ∉ right.cols
    ∧ (∀ k ∈ onKeys, k ∈ left.cols ∧ k ∈ right.cols) := by
  rw [merge_frames] at hok
  by_cases h1 : (onKeys.filter (fun k => decide (k ∉ left.cols)) ≠ [] ∨
      onKeys.filter (fun k => decide (k ∉ right.cols)) ≠ [])
  · rw [if_pos h1] at hok
    exact absurd hok (by simp)
  rw [if_neg h1] at hok
  push_neg at h1
  have hkeys : ∀ k ∈ onKeys, k ∈ left.cols ∧ k ∈ right.cols := by
    intro k hk
    constructor
    · by_contra hcon
      exact List.ne_nil_of_mem (List.mem_filter.mpr ⟨hk, decide_eq_true hcon⟩) h1.1
    · by_contra hcon
      exact List.ne_nil_of_mem (List.mem_filter.mpr ⟨hk, decide_eq_true hcon⟩) h1.2
  by_cases h2 : ¬ (how = "inner" ∨ how = "left" ∨ how = "right" ∨ how = "outer")
  · rw [if_pos h2] at hok
    exact absurd hok (by simp)
  rw [if_neg h2] at hok
  push_neg at h2
  by_cases h3 : ("_merge" ∈ left.cols ∨ "_merge" ∈ right.cols)
  · rw [if_pos ⟨rfl, h3⟩] at hok
    exact absurd hok (by simp)
  rw [if_neg (fun hh => h3 hh.2)] at hok
  push_neg at h3
  cases validate with
  | none =>
    simp only at hok
    exact ⟨(Except.ok.inj hok).symm, h2, h3.1, h3.2, hkeys⟩
  | some token =>
    simp only at hok
    cases hcc : checkCardinality token (keysUnique left.rows onKeys) (keysUnique right.rows onKeys) with
    | none =>
      rw [hcc] at hok
      exact absurd hok (by simp)
    | some passed =>
      rw [hcc] at hok
      cases passed with
      | false => exact absurd hok (by simp)
      | true => exact ⟨(Except.ok.inj hok).symm, h2, h3.1, h3.2, hkeys⟩

/-- A `merge_frames` call with sane inputs and no validation succeeds and
returns the joined frame. -/
theorem merge_frames_ok_none (left right : DataFrame) (onKeys : List String)
    (how : String) (suffixes : String × String)
    (hk : ∀ k ∈ onKeys, k ∈ left.cols ∧ k ∈ right.cols)
    (hhow : how = "inner" ∨ how = "left" ∨ how = "right" ∨ how = "outer")
    (hindl : "_merge" ∉ left.cols) (hindr : "_merge" ∉ right.cols) :
    merge_frames left right onKeys how none suffixes true
      = .ok ⟨(MergeSpec.ofArgs left right onKeys suffixes true).outCols,
             (MergeSpec.ofArgs left right onKeys suffixes true).rowsFor how left.rows right.rows⟩ := by
  have hmissL : onKeys.filter (fun k => decide (k ∉ left.cols)) = [] := by
    rw [List.filter_eq_nil_iff]
    intro k hk2
    simp [(hk k hk2).1]
  have hmissR : onKeys.filter (fun k => decide (k ∉ right.cols)) = [] := by
    rw [List.filter_eq_nil_iff]
    intro k hk2
    simp [(hk k hk2).2]
  rw [merge_frames]
  simp only [hmissL, hmissR]
  rw [if_neg (by simp), if_neg (not_not_intro hhow),
    if_neg (fun h => h.2.elim (fun hm => hindl hm) (fun hm => hindr hm))]

/-- C1: for all frames and every non-empty key tuple present in both,
`merge_frames(A, B, K, "inner")` succeeds, and a key value occurs among the
keys of the merged rows exactly when it occurs among the keys of both
inputs — no row exists for a key value present on only one side. -/
theorem merge_frames_inner_exact_key_matches (left right : DataFrame)
    (onKeys : List String) (suffixes : String × String)
    (hne : onKeys ≠ [])
    (hk : ∀ k ∈ onKeys, k ∈ left.cols ∧ k ∈ right.cols)
    (hwl : left.Wf) (hwr : right.Wf)
    (hindl : "_merge" ∉ left.cols) (hindr : "_merge" ∉ right.cols) :
    ∃ m, merge_frames left right onKeys "inner" none suffixes true = .ok m ∧
      ∀ kv : List (Option Cell),
        (∃ r ∈ m.rows, keyOf onKeys r = kv) ↔
        ((∃ a ∈ left.rows, keyOf onKeys a = kv) ∧
         (∃ b ∈ right.rows, keyOf onKeys b = kv)) := by
  set ms := MergeSpec.ofArgs left right onKeys suffixes true with hmsdef
  have hone : ms.rowsFor "inner" left.rows right.rows = ms.innerRows left.rows right.rows := by
    rw [MergeSpec.rowsFor, if_pos rfl]
  have hok := merge_frames_ok_none left right onKeys "inner" suffixes hk (Or.inl rfl)
    hindl hindr
  rw [hone] at hok
  refine ⟨_, hok, ?_⟩
  intro kv
  have hkeysome : ∀ r ∈ left.rows, ∀ k ∈ ms.onKeys, (lookupVal r k).isSome := by
    intro r hr k hk2
    apply lookupVal_isSome_of_mem_keys
    rw [hwl r hr]
    exact (hk k hk2).1
  constructor
  · rintro ⟨r, hrm, hkey⟩
    have hrm2 : r ∈ ms.innerRows left.rows right.rows := hrm
    rw [MergeSpec.innerRows] at hrm2
    rcases List.mem_flatMap.mp hrm2 with ⟨la, hla, hr2⟩
    rcases List.mem_map.mp hr2 with ⟨rb, hrbf, rfl⟩
    rcases List.mem_filter.mp hrbf with ⟨hrb, hsame⟩
    rw [sameKey] at hsame
    have hs := of_decide_eq_true hsame
    have hco := keyOf_combineBoth ms la rb (hkeysome la hla)
    have honk : ms.onKeys = onKeys := rfl
    rw [honk] at hco hs
    rw [hco] at hkey
    exact ⟨⟨la, hla, hkey⟩, ⟨rb, hrb, hs.trans hkey⟩⟩
  · rintro ⟨⟨a, ha, hka⟩, ⟨b, hb, hkb⟩⟩
    refine ⟨ms.combineBoth a b, ?_, ?_⟩
    · show ms.combineBoth a b ∈ ms.innerRows left.rows right.rows
      rw [MergeSpec.innerRows]
      apply List.mem_flatMap.mpr
      refine ⟨a, ha, List.mem_map.mpr ⟨b, List.mem_filter.mpr ⟨hb, ?_⟩, rfl⟩⟩
      rw [sameKey]
      exact decide_eq_true
        (show keyOf ms.onKeys b = keyOf ms.onKeys a from hkb.trans hka.symm)
    · have hco2 := keyOf_combineBoth ms a b (hkeysome a ha)
      have honk : ms.onKeys = onKeys := rfl
      rw [honk] at hco2
      rw [hco2]
      exact hka

/-- Witness: `merge_frames_inner_exact_key_matches` at the two scenario
frames keyed by `id`. -/
theorem merge_frames_inner_exact_key_matches_witness :
    ((["id"] : List String) ≠ []) ∧
    (∀ k ∈ (["id"] : List String), k ∈ dfL1.cols ∧ k ∈ dfR1.cols) ∧
    dfL1.Wf ∧ dfR1.Wf ∧ ("_merge" : String) ∉ dfL1.cols ∧ ("_merge" : String) ∉ dfR1.cols ∧
    (∃ m, merge_frames dfL1 dfR1 ["id"] "inner" none ("_left", "_right") true = .ok m ∧
      ∀ kv : List (Option Cell),
        (∃ r ∈ m.rows, keyOf ["id"] r = kv) ↔
        ((∃ a ∈ dfL1.rows, keyOf ["id"] a = kv) ∧
         (∃ b ∈ dfR1.rows, keyOf ["id"] b = kv))) :=
  ⟨by decide, by decide, by decide, by decide, by decide, by decide,
    merge_frames_inner_exact_key_matches dfL1 dfR1 ["id"] ("_left", "_right")
      (by decide) (by decide) (by decide) (by decide) (by decide) (by decide)⟩

theorem lookupVal_combineRow_merge (onKeys lrest rrest : List String) (ls rs : String)
    (fK fL fR : String → Cell) (tag : String)
    (hK : ∀ k ∈ onKeys, k ≠ "_merge")
    (hL : ∀ c ∈ lrest, sufL rrest ls c ≠ "_merge")
    (hR : ∀ c ∈ rrest, sufR lrest rs c ≠ "_merge") :
    lookupVal (onKeys.map (fun k => (k, fK k))
      ++ lrest.map (fun c => (sufL rrest ls c, fL c))
      ++ rrest.map (fun c => (sufR lrest rs c, fR c))
      ++ [("_merge", some tag)]) "_merge" = some (some tag) := by
  rw [List.append_assoc, List.append_assoc]
  rw [lookupVal_append_right _ _ _ (by
    intro p hp
    rcases List.mem_map.mp hp with ⟨c, hc, rfl⟩
    exact hK c hc)]
  rw [lookupVal_append_right _ _ _ (by
    intro p hp
    rcases List.mem_map.mp hp with ⟨c, hc, rfl⟩
    exact hL c hc)]
  rw [lookupVal_append_right _ _ _ (by
    intro p hp
    rcases List.mem_map.mp hp with ⟨c, hc, rfl⟩
    exact hR c hc)]
  rw [lookupVal, if_pos rfl]

theorem combineBoth_merge_tag (ms : MergeSpec) (la rb : Row) (hind : ms.indicator = true)
    (hK : ∀ k ∈ ms.onKeys, k ≠ "_merge")
    (hL : ∀ c ∈ ms.lrest, sufL ms.rrest ms.ls c ≠ "_merge")
    (hR : ∀ c ∈ ms.rrest, sufR ms.lrest ms.rs c ≠ "_merge") :
    lookupVal (ms.combineBoth la rb) "_merge" = some (some "both") := by
  rw [MergeSpec.combineBoth, MergeSpec.tagEntries, if_pos hind]
  exact lookupVal_combineRow_merge ms.onKeys ms.lrest ms.rrest ms.ls ms.rs _ _ _ "both" hK hL hR

theorem combineLeftOnly_merge_tag (ms : MergeSpec) (la : Row) (hind : ms.indicator = true)
    (hK : ∀ k ∈ ms.onKeys, k ≠ "_merge")
    (hL : ∀ c ∈ ms.lrest, sufL ms.rrest ms.ls c ≠ "_merge")
    (hR : ∀ c ∈ ms.rrest, sufR ms.lrest ms.rs c ≠ "_merge") :
    lookupVal (ms.combineLeftOnly la) "_merge" = some (some "left_only") := by
  rw [MergeSpec.combineLeftOnly, MergeSpec.tagEntries, if_pos hind]
  exact lookupVal_combineRow_merge ms.onKeys ms.lrest ms.rrest ms.ls ms.rs _ _ _ "left_only"
    hK hL hR

theorem combineRightOnly_merge_tag (ms : MergeSpec) (rb : Row) (hind : ms.indicator = true)
    (hK : ∀ k ∈ ms.onKeys, k ≠ "_merge")
    (hL : ∀ c ∈ ms.lrest, sufL ms.rrest ms.ls c ≠ "_merge")
    (hR : ∀ c ∈ ms.rrest, sufR ms.lrest ms.rs c ≠ "_merge") :
    lookupVal (ms.combineRightOnly rb) "_merge" = some (some "right_only") := by
  rw [MergeSpec.combineRightOnly, MergeSpec.tagEntries, if_pos hind]
  exact lookupVal_combineRow_merge ms.onKeys ms.lrest ms.rrest ms.ls ms.rs _ _ _ "right_only"
    hK hL hR

theorem mem_leftJoinRows_decomp {ms : MergeSpec} {lrows rrows : List Row} {r : Row}
    (h : r ∈ ms.leftJoinRows lrows rrows) :
    (∃ la rb, r = ms.combineBoth la rb) ∨ (∃ la, r = ms.combineLeftOnly la) := by
  rw [MergeSpec.leftJoinRows] at h
  rcases List.mem_flatMap.mp h with ⟨la, hla, hmem⟩
  by_cases he : (rrows.filter (fun rb => sameKey ms.onKeys rb la)).isEmpty
  · rw [if_pos he] at hmem
    rcases List.mem_singleton.mp hmem with rfl
    exact Or.inr ⟨la, rfl⟩
  · rw [if_neg he] at hmem
    rcases List.mem_map.mp hmem with ⟨rb, hrb, rfl⟩
    exact Or.inl ⟨la, rb, rfl⟩

theorem mem_rowsFor_decomp {ms : MergeSpec} {how : String} {lrows rrows : List Row} {r : Row}
    (hhow : how = "inner" ∨ how = "left" ∨ how = "right" ∨ how = "outer")
    (h : r ∈ ms.rowsFor how lrows rrows) :
    (∃ la rb, r = ms.combineBoth la rb) ∨ (∃ la, r = ms.combineLeftOnly la) ∨
    (∃ rb, r = ms.combineRightOnly rb) := by
  rcases hhow with rfl | rfl | rfl | rfl
  · rw [MergeSpec.rowsFor, if_pos rfl] at h
    rw [MergeSpec.innerRows] at h
    rcases List.mem_flatMap.mp h with ⟨la, hla, hmem⟩
    rcases List.mem_map.mp hmem with ⟨rb, hrb, rfl⟩
    exact Or.inl ⟨la, rb, rfl⟩
  · rw [MergeSpec.rowsFor, if_neg (by decide), if_pos rfl] at h
    rcases mem_leftJoinRows_decomp h with h2 | h2
    · exact Or.inl h2
    · exact Or.inr (Or.inl h2)
  · rw [MergeSpec.rowsFor, if_neg (by decide), if_neg (by decide), if_pos rfl] at h
    rw [MergeSpec.rightJoinRows] at h
    rcases List.mem_flatMap.mp h with ⟨rb, hrb, hmem⟩
    by_cases he : (lrows.filter (fun la => sameKey ms.onKeys la rb)).isEmpty
    · rw [if_pos he] at hmem
      rcases List.mem_singleton.mp hmem with rfl
      exact Or.inr (Or.inr ⟨rb, rfl⟩)
    · rw [if_neg he] at hmem
      rcases List.mem_map.mp hmem with ⟨la, hla, rfl⟩
      exact Or.inl ⟨la, rb, rfl⟩
  · rw [MergeSpec.rowsFor, if_neg (by decide), if_neg (by decide), if_neg (by decide)] at h
    rw [MergeSpec.outerRows] at h
    rcases List.mem_append.mp h with h2 | h2
    · rcases mem_leftJoinRows_decomp h2 with h3 | h3
      · exact Or.inl h3
      · exact Or.inr (Or.inl h3)
    · rcases List.mem_map.mp h2 with ⟨rb, hrb, rfl⟩
      exact Or.inr (Or.inr ⟨rb, rfl⟩)

theorem countP_three_partition (rows : List Row)
    (h : ∀ r ∈ rows, lookupCell r "_merge" = some "both" ∨
      lookupCell r "_merge" = some "left_only" ∨
      lookupCell r "_merge" = some "right_only") :
    rows.countP (fun r => lookupCell r "_merge" == some "left_only")
      + rows.countP (fun r => lookupCell r "_merge" == some "right_only")
      + rows.countP (fun r => lookupCell r "_merge" == some "both")
      = rows.length := by
  induction rows with
  | nil => rfl
  | cons r rs ih =>
    have ih2 := ih (fun r2 h2 => h r2 (List.mem_cons_of_mem _ h2))
    rcases h r (List.mem_cons_self _ _) with hv | hv | hv <;>
      rw [List.countP_cons, List.countP_cons, List.countP_cons, hv, List.length_cons] <;>
      simp <;> omega

/-- C2: every Merge Result — any successful `merge_frames` output with the
provenance indicator — satisfies the audit invariant: `audit_counts`
succeeds and its counts satisfy
`left_only + right_only + matched(both) == total_rows`.  The two side
conditions say that no suffixed column name collides with the literal
`_merge` (with the repository's `("_left", "_right")` suffixes this always
holds). -/
theorem audit_counts_partition_of_merge (left right : DataFrame) (onKeys : List String)
    (how : String) (validate : Option String) (suffixes : String × String) (m : DataFrame)
    (hsl : ∀ c ∈ left.cols, c ++ suffixes.1 ≠ "_merge")
    (hsr : ∀ c ∈ right.cols, c ++ suffixes.2 ≠ "_merge")
    (hok : merge_frames left right onKeys how validate suffixes true = .ok m) :
    ∃ a, audit_counts m = .ok a ∧
      a.left_only + a.right_only + a.both = a.total_rows := by
  obtain ⟨hm, hhow, hindl, hindr, hkeys⟩ := merge_frames_ok_inv hok
  subst hm
  set ms := MergeSpec.ofArgs left right onKeys suffixes true with hms
  have hlrest : ∀ c ∈ ms.lrest, c ∈ left.cols :=
    fun c hc => (List.mem_filter.mp hc).1
  have hrrest : ∀ c ∈ ms.rrest, c ∈ right.cols :=
    fun c hc => (List.mem_filter.mp hc).1
  have hK : ∀ k ∈ ms.onKeys, k ≠ "_merge" := by
    intro k hk2 he
    exact hindl (he ▸ (hkeys k hk2).1)
  have hL : ∀ c ∈ ms.lrest, sufL ms.rrest ms.ls c ≠ "_merge" := by
    intro c hc
    rw [sufL]
    by_cases hcr : c ∈ ms.rrest
    · rw [if_pos hcr]
      exact hsl c (hlrest c hc)
    · rw [if_neg hcr]
      intro he
      exact hindl (he ▸ hlrest c hc)
  have hR : ∀ c ∈ ms.rrest, sufR ms.lrest ms.rs c ≠ "_merge" := by
    intro c hc
    rw [sufR]
    by_cases hcl : c ∈ ms.lrest
    · rw [if_pos hcl]
      exact hsr c (hrrest c hc)
    · rw [if_neg hcl]
      intro he
      exact hindr (he ▸ hrrest c hc)
  have hmem : "_merge" ∈ ms.outCols := by
    rw [MergeSpec.outCols]
    refine List.mem_append_right _ ?_
    show "_merge" ∈ (["_merge"] : List String)
    exact List.mem_singleton.mpr rfl
  have hpart : ∀ r ∈ ms.rowsFor how left.rows right.rows,
      lookupCell r "_merge" = some "both" ∨
      lookupCell r "_merge" = some "left_only" ∨
      lookupCell r "_merge" = some "right_only" := by
    intro r hr
    rcases mem_rowsFor_decomp hhow hr with ⟨la, rb, rfl⟩ | ⟨la, rfl⟩ | ⟨rb, rfl⟩
    · left
      rw [lookupCell, combineBoth_merge_tag ms la rb rfl hK hL hR]
      rfl
    · right; left
      rw [lookupCell, combineLeftOnly_merge_tag ms la rfl hK hL hR]
      rfl
    · right; right
      rw [lookupCell, combineRightOnly_merge_tag ms rb rfl hK hL hR]
      rfl
  refine ⟨⟨(ms.rowsFor how left.rows right.rows).countP
      (fun r => lookupCell r "_merge" == some "left_only"),
    (ms.rowsFor how left.rows right.rows).countP
      (fun r => lookupCell r "_merge" == some "right_only"),
    (ms.rowsFor how left.rows right.rows).countP
      (fun r => lookupCell r "_merge" == some "both"),
    (ms.rowsFor how left.rows right.rows).length⟩, ?_, ?_⟩
  · rw [audit_counts, if_pos (hmem : "_merge" ∈
      (⟨ms.outCols, ms.rowsFor how left.rows right.rows⟩ : DataFrame).cols)]
  · exact countP_three_partition _ hpart

/-- Witness: `audit_counts_partition_of_merge` at the outer-join scenario,
where the audit returns `{matched 1, left_only 1, right_only 1, total 3}`. -/
theorem audit_counts_partition_of_merge_witness :
    (∀ c ∈ dfL1.cols, c ++ ("_left", "_right").1 ≠ "_merge") ∧
    (∀ c ∈ dfR1.cols, c ++ ("_left", "_right").2 ≠ "_merge") ∧
    (∃ a, audit_counts
        ⟨(MergeSpec.ofArgs dfL1 dfR1 ["id"] ("_left", "_right") true).outCols,
         (MergeSpec.ofArgs dfL1 dfR1 ["id"] ("_left", "_right") true).rowsFor "outer"
           dfL1.rows dfR1.rows⟩ = .ok a ∧
      a.left_only + a.right_only + a.both = a.total_rows) :=
  ⟨by decide, by decide,
    audit_counts_partition_of_merge dfL1 dfR1 ["id"] "outer" none ("_left", "_right")
      _ (by decide) (by decide) rfl⟩

/-! ### Facts about the dtype-coercion loop -/

theorem applyDtypeMap_cols (cast : String → List Cell → Except String (List Cell)) :
    ∀ (m : List (String × String)) (df : DataFrame),
    (applyDtypeMap cast df m).1.cols = df.cols := by
  intro m
  induction m with
  | nil => intro df; rfl
  | cons e rest ih =>
    intro df
    obtain ⟨c0, d0⟩ := e
    rw [applyDtypeMap]
    by_cases hc0 : c0 ∈ df.cols
    · rw [if_pos hc0]
      cases hres : cast d0 (colCells df c0) with
      | ok vals =>
        rw [ih (setColVals df c0 vals)]
        rw [setColVals]
        exact if_pos hc0
      | error e0 => exact ih df
    · rw [if_neg hc0]
      exact ih df

theorem zipWith_setCell_other (rows : List Row) (vals : List Cell) (col c : String)
    (h : c ≠ col) (hlen : vals.length = rows.length) :
    (List.zipWith (fun r v => setCell r col v) rows vals).map (fun r => lookupCell r c)
      = rows.map (fun r => lookupCell r c) := by
  induction rows generalizing vals with
  | nil => simp
  | cons r rs ih =>
    cases vals with
    | nil => simp at hlen
    | cons v vs =>
      rw [List.zipWith_cons_cons, List.map_cons, List.map_cons,
        lookupCell_setCell_other r col c v h]
      rw [ih vs (by simpa using hlen)]

theorem colCells_setColVals_other (df : DataFrame) (col : String) (vals : List Cell)
    (c : String) (h : c ≠ col) (hlen : vals.length = df.rows.length) :
    colCells (setColVals df col vals) c = colCells df c := by
  rw [colCells, colCells, setColVals]
  exact zipWith_setCell_other df.rows vals col c h hlen

theorem applyDtypeMap_untouched (cast : String → List Cell → Except String (List Cell))
    (hcast : ∀ dt cs out, cast dt cs = .ok out → out.length = cs.length) :
    ∀ (m : List (String × String)) (df : DataFrame) (col : String),
    (∀ e ∈ m, e.1 ≠ col) →
    colCells (applyDtypeMap cast df m).1 col = colCells df col := by
  intro m
  induction m with
  | nil => intro df col _; rfl
  | cons e rest ih =>
    intro df col hnot
    obtain ⟨c0, d0⟩ := e
    have hc0col : c0 ≠ col := hnot (c0, d0) (List.mem_cons_self _ _)
    have hrest : ∀ e ∈ rest, e.1 ≠ col :=
      fun e he => hnot e (List.mem_cons_of_mem _ he)
    rw [applyDtypeMap]
    by_cases hc0 : c0 ∈ df.cols
    · rw [if_pos hc0]
      cases hres : cast d0 (colCells df c0) with
      | ok vals =>
        rw [ih (setColVals df c0 vals) col hrest]
        exact colCells_setColVals_other df c0 vals col (Ne.symm hc0col)
          ((hcast _ _ _ hres).trans (by rw [colCells, List.length_map]))
      | error e0 => exact ih df col hrest
    · rw [if_neg hc0]
      exact ih df col hrest

/-- C8: for every requested coercion whose cast fails, the affected column
keeps its original values (and the frame keeps its columns), the diagnostic
stream receives the warning naming the column, the dtype and the cause, and
the loop always returns a frame — it cannot abort, its result type carries
no failure.  `cast` is the pandas `astype` primitive, assumed only to
preserve the column length on success. -/
theorem applyDtypeMap_cast_failure (cast : String → List Cell → Except String (List Cell))
    (hcast : ∀ dt cs out, cast dt cs = .ok out → out.length = cs.length) :
    ∀ (m : List (String × String)) (df : DataFrame) (col dt : String) (e : String),
    (m.map Prod.fst).Nodup → (col, dt) ∈ m → col ∈ df.cols →
    cast dt (colCells df col) = .error e →
    (applyDtypeMap cast df m).1.cols = df.cols ∧
    colCells (applyDtypeMap cast df m).1 col = colCells df col ∧
    castWarnMsg col dt e ∈ (applyDtypeMap cast df m).2 := by
  intro m
  induction m with
  | nil => intro df col dt e _ hmem; simp at hmem
  | cons e0 rest ih =>
    intro df col dt e hnodup hmem hcol herr
    obtain ⟨c0, d0⟩ := e0
    have hnodup2 : (rest.map Prod.fst).Nodup := by
      rw [List.map_cons, List.nodup_cons] at hnodup
      exact hnodup.2
    have hc0notin : c0 ∉ rest.map Prod.fst := by
      rw [List.map_cons, List.nodup_cons] at hnodup
      exact hnodup.1
    refine ⟨applyDtypeMap_cols cast _ df, ?_⟩
    rw [applyDtypeMap]
    by_cases hc0 : c0 ∈ df.cols
    · rw [if_pos hc0]
      cases hres : cast d0 (colCells df c0) with
      | ok vals =>
        have hne : c0 ≠ col := by
          rintro rfl
          rcases List.mem_cons.mp hmem with he | he
          · rw [Prod.mk.injEq] at he
            obtain ⟨-, rfl⟩ := he
            rw [herr] at hres
            exact Except.noConfusion hres
          · exact hc0notin (List.mem_map.mpr ⟨(c0, dt), he, rfl⟩)
        have hmem2 : (col, dt) ∈ rest := by
          rcases List.mem_cons.mp hmem with he | he
          · rw [Prod.mk.injEq] at he
            exact absurd he.1.symm hne
          · exact he
        have hlen : vals.length = df.rows.length :=
          (hcast _ _ _ hres).trans (by rw [colCells, List.length_map])
        have hcells := colCells_setColVals_other df c0 vals col (Ne.symm hne) hlen
        have hcol2 : col ∈ (setColVals df c0 vals).cols := by
          rw [setColVals]
          rw [if_pos hc0]
          exact hcol
        obtain ⟨-, hkeep, hwarn⟩ :=
          ih (setColVals df c0 vals) col dt e hnodup2 hmem2 hcol2 (by rw [hcells]; exact herr)
        exact ⟨hkeep.trans hcells, hwarn⟩
      | error e0 =>
        by_cases hhead : (c0, d0) = (col, dt)
        · rw [Prod.mk.injEq] at hhead
          obtain ⟨rfl, rfl⟩ := hhead
          have he0 : e0 = e := by
            rw [herr] at hres
            exact (Except.error.inj hres).symm
          subst he0
          refine ⟨?_, List.mem_cons_self _ _⟩
          exact applyDtypeMap_untouched cast hcast rest df c0
            (fun p hp hpc => hc0notin (hpc ▸ List.mem_map.mpr ⟨p, hp, rfl⟩))
        · have hmem2 : (col, dt) ∈ rest := by
            rcases List.mem_cons.mp hmem with he | he
            · exact absurd he.symm hhead
            · exact he
          obtain ⟨-, hkeep, hwarn⟩ := ih df col dt e hnodup2 hmem2 hcol herr
          exact ⟨hkeep, List.mem_cons_of_mem _ hwarn⟩
    · rw [if_neg hc0]
      have hmem2 : (col, dt) ∈ rest := by
        rcases List.mem_cons.mp hmem with he | he
        · rw [Prod.mk.injEq] at he
          exact absurd (he.1 ▸ hcol) hc0
        · exact he
      exact (ih df col dt e hnodup2 hmem2 hcol herr).2

/-- Witness: `applyDtypeMap_cast_failure` with a failing `Int64` cast on the
`id` column. -/
theorem applyDtypeMap_cast_failure_witness :
    (∀ dt cs out, castFail dt cs = .ok out → out.length = cs.length) ∧
    (([(("id" : String), ("Int64" : String))].map Prod.fst).Nodup) ∧
    (("id", "Int64") ∈ [(("id" : String), ("Int64" : String))]) ∧
    (("id" : String) ∈ dfDup.cols) ∧
    (castFail "Int64" (colCells dfDup "id") = .error "bad") ∧
    ((applyDtypeMap castFail dfDup [("id", "Int64")]).1.cols = dfDup.cols ∧
     colCells (applyDtypeMap castFail dfDup [("id", "Int64")]).1 "id" = colCells dfDup "id" ∧
     castWarnMsg "id" "Int64" "bad" ∈ (applyDtypeMap castFail dfDup [("id", "Int64")]).2) :=
  ⟨fun _ _ _ h => Except.noConfusion h, by decide, by decide, by decide, rfl,
    applyDtypeMap_cast_failure castFail (fun _ _ _ h => Except.noConfusion h)
      [("id", "Int64")] dfDup "id" "Int64" "bad" (by decide) (by decide) (by decide) rfl⟩

/-! ### Facts about the orchestrator -/

theorem except_bind_ne {α β : Type} {e1 : Except DmError α} {f : α → Except DmError β}
    {err : DmError} (h1 : e1 ≠ .error err)
    (h2 : ∀ a, e1 = .ok a → f a ≠ .error err) :
    (e1 >>= f) ≠ .error err := by
  cases e1 with
  | error e =>
    intro h
    rw [show (Except.error e >>= f : Except DmError β) = Except.error e from rfl] at h
    exact h1 (by rw [Except.error.inj h])
  | ok a =>
    intro h
    rw [show (Except.ok a >>= f : Except DmError β) = f a from rfl] at h
    exact h2 a rfl h

theorem drop_dupes_ne_noMergeColumn (df : DataFrame) (ks : List String) (keep : String) :
    drop_dupes_on df ks keep ≠ .error .noMergeColumn := by
  rw [drop_dupes_on]
  split_ifs <;> simp

theorem merge_frames_ne_noMergeColumn (left right : DataFrame) (onKeys : List String)
    (how : String) (validate : Option String) (suffixes : String × String)
    (indicator : Bool) :
    merge_frames left right onKeys how validate suffixes indicator
      ≠ .error .noMergeColumn := by
  rw [merge_frames]
  split_ifs <;> try simp
  cases validate with
  | none => simp
  | some token =>
    cases hcc : checkCardinality token (keysUnique left.rows onKeys)
        (keysUnique right.rows onKeys) with
    | none => simp [hcc]
    | some b => cases b <;> simp [hcc]

theorem resolve_conflicts_error_shape :
    ∀ (spec : List (String × String)) (df : DataFrame) (sfx : String × String)
      (e : DmError) (df2 : DataFrame),
    resolve_conflicts df spec sfx = (.error e, df2) →
    ∃ s b, e = .unknownStrategy s b := by
  intro spec
  induction spec with
  | nil =>
    intro df sfx e df2 h
    rw [resolve_conflicts] at h
    exact absurd (congrArg Prod.fst h) (by simp)
  | cons e0 rest ih =>
    intro df sfx e df2 h
    obtain ⟨b0, s0⟩ := e0
    rw [resolve_conflicts] at h
    by_cases hc : b0 ++ sfx.1 ∉ df.cols ∨ b0 ++ sfx.2 ∉ df.cols
    · rw [if_pos hc] at h
      exact ih df sfx e df2 h
    rw [if_neg hc] at h
    by_cases h1 : s0 = "left"
    · rw [if_pos h1] at h
      exact ih _ sfx e df2 h
    rw [if_neg h1] at h
    by_cases h2 : s0 = "right"
    · rw [if_pos h2] at h
      exact ih _ sfx e df2 h
    rw [if_neg h2] at h
    by_cases h3 : s0 = "coalesce"
    · rw [if_pos h3] at h
      exact ih _ sfx e df2 h
    rw [if_neg h3] at h
    have he := congrArg Prod.fst h
    simp only at he
    exact ⟨s0, b0, (Except.error.inj he).symm⟩

theorem resolve_conflicts_cols_mono :
    ∀ (spec : List (String × String)) (df : DataFrame) (sfx : String × String)
      (c : String), c ∈ df.cols → c ∈ (resolve_conflicts df spec sfx).2.cols := by
  intro spec
  induction spec with
  | nil => intro df sfx c hc; exact hc
  | cons e0 rest ih =>
    intro df sfx c hc
    obtain ⟨b0, s0⟩ := e0
    rw [resolve_conflicts]
    by_cases hcm : b0 ++ sfx.1 ∉ df.cols ∨ b0 ++ sfx.2 ∉ df.cols
    · rw [if_pos hcm]
      exact ih df sfx c hc
    rw [if_neg hcm]
    by_cases h1 : s0 = "left"
    · rw [if_pos h1]
      exact ih _ sfx c (setColWith_cols_mem hc)
    rw [if_neg h1]
    by_cases h2 : s0 = "right"
    · rw [if_pos h2]
      exact ih _ sfx c (setColWith_cols_mem hc)
    rw [if_neg h2]
    by_cases h3 : s0 = "coalesce"
    · rw [if_pos h3]
      exact ih _ sfx c (setColWith_cols_mem hc)
    rw [if_neg h3]
    exact hc

theorem merge_frames_ok_has_merge {left right : DataFrame} {onKeys : List String}
    {how : String} {validate : Option String} {suffixes : String × String}
    {m : DataFrame}
    (hok : merge_frames left right onKeys how validate suffixes true = .ok m) :
    "_merge" ∈ m.cols := by
  obtain ⟨hm, -, -, -, -⟩ := merge_frames_ok_inv hok
  subst hm
  show "_merge" ∈ (MergeSpec.ofArgs left right onKeys suffixes true).outCols
  rw [MergeSpec.outCols]
  refine List.mem_append_right _ ?_
  show "_merge" ∈ (["_merge"] : List String)
  exact List.mem_singleton.mpr rfl

theorem audit_counts_ne_noMergeColumn_of_mem {df : DataFrame}
    (h : "_merge" ∈ df.cols) : audit_counts df ≠ .error .noMergeColumn := by
  rw [audit_counts, if_pos h]
  simp

theorem except_pure_ne_error {α : Type} (a : α) (err : DmError) :
    (pure a : Except DmError α) ≠ .error err :=
  fun h => Except.noConfusion (show (Except.ok a : Except DmError α) = .error err from h)

/-- C10: the orchestrator invokes the merge with the provenance indicator
enabled and `resolve_conflicts` only ever adds columns, so the merged frame
handed to `audit_counts` always carries the `_merge` column and the
missing-provenance error branch of `audit_counts` is unreachable from
`quick_merge_with_audit`: first conjunct, the resolver never removes a
column; second conjunct, no run of the orchestrator returns the
missing-provenance error. -/
theorem quick_merge_audit_branch_unreachable :
    (∀ (df : DataFrame) (cs : List (String × String)) (sfx : String × String)
      (c : String), c ∈ df.cols → c ∈ (resolve_conflicts df cs sfx).2.cols) ∧
    (∀ (left right : DataFrame) (onKeys : List String) (how : String)
      (dl dr : Option (List String)) (validate : Option String)
      (sfx : String × String) (conflicts : Option (List (String × String))),
      quick_merge_with_audit left right onKeys how dl dr validate sfx conflicts
        ≠ .error .noMergeColumn) := by
  refine ⟨fun df cs sfx c hc => resolve_conflicts_cols_mono cs df sfx c hc, ?_⟩
  intro left right onKeys how dl dr validate sfx conflicts
  have hdedup : ∀ (df : DataFrame) (o : Option (List String)),
      dedupStep df o ≠ .error .noMergeColumn := by
    intro df o
    cases o with
    | none => exact except_pure_ne_error _ _
    | some ks =>
      rw [dedupStep]
      by_cases he : ks.isEmpty
      · rw [if_pos he]
        exact except_pure_ne_error _ _
      · rw [if_neg he]
        exact drop_dupes_ne_noMergeColumn df ks "last"
  have hresolve_ne : ∀ (df : DataFrame),
      resolveStep df conflicts sfx ≠ .error .noMergeColumn := by
    intro df
    cases conflicts with
    | none => exact except_pure_ne_error _ _
    | some cs =>
      rw [resolveStep]
      by_cases he : cs.isEmpty
      · rw [if_pos he]
        exact except_pure_ne_error _ _
      · rw [if_neg he]
        cases hres : resolve_conflicts df cs sfx with
        | mk res df2 =>
          cases res with
          | ok u => exact except_pure_ne_error _ _
          | error e =>
            obtain ⟨s, b, rfl⟩ := resolve_conflicts_error_shape cs df sfx e df2 hres
            intro h
            exact DmError.noConfusion (Except.error.inj
              (h : (Except.error (DmError.unknownStrategy s b) : Except DmError DataFrame)
                = Except.error DmError.noMergeColumn))
  have hresolve_mono : ∀ (df df2 : DataFrame),
      resolveStep df conflicts sfx = .ok df2 →
      "_merge" ∈ df.cols → "_merge" ∈ df2.cols := by
    intro df df2 hstep hmm
    cases conflicts with
    | none =>
      rw [show resolveStep df none sfx = pure df from rfl,
        show (pure df : Except DmError DataFrame) = .ok df from rfl] at hstep
      exact (Except.ok.inj hstep) ▸ hmm
    | some cs =>
      rw [resolveStep] at hstep
      by_cases he : cs.isEmpty
      · rw [if_pos he,
          show (pure df : Except DmError DataFrame) = .ok df from rfl] at hstep
        exact (Except.ok.inj hstep) ▸ hmm
      · rw [if_neg he] at hstep
        cases hres : resolve_conflicts df cs sfx with
        | mk res dfr =>
          rw [hres] at hstep
          cases res with
          | error e =>
            exact absurd hstep (fun hc => Except.noConfusion
              (hc : (Except.error e : Except DmError DataFrame) = Except.ok df2))
          | ok u =>
            have hid : dfr = df2 :=
              Except.ok.inj (hstep : (Except.ok dfr : Except DmError DataFrame) = Except.ok df2)
            have hmono := resolve_conflicts_cols_mono cs df sfx "_merge" hmm
            rw [hres] at hmono
            exact hid ▸ hmono
  rw [quick_merge_with_audit]
  apply except_bind_ne (hdedup left dl)
  intro l hl
  apply except_bind_ne (hdedup right dr)
  intro r hr
  apply except_bind_ne (merge_frames_ne_noMergeColumn l r onKeys how validate sfx true)
  intro merged hmerged
  have hmem : "_merge" ∈ merged.cols := merge_frames_ok_has_merge hmerged
  apply except_bind_ne (hresolve_ne merged)
  intro merged2 hm2
  have hmem2 : "_merge" ∈ merged2.cols := hresolve_mono merged merged2 hm2 hmem
  apply except_bind_ne (audit_counts_ne_noMergeColumn_of_mem hmem2)
  intro counts hcounts
  exact except_pure_ne_error _ _

/-- Witness: `quick_merge_audit_branch_unreachable` applied at the scenario
frames: the resolver keeps the existing column, and the orchestrator run
does not return the missing-provenance error. -/
theorem quick_merge_audit_branch_unreachable_witness :
    (("city_left" : String) ∈ dfCity.cols →
      ("city_left" : String) ∈ (resolve_conflicts dfCity [("city", "coalesce")]
        ("_left", "_right")).2.cols) ∧
    quick_merge_with_audit dfL1 dfR1 ["id"] "left" none none none ("_left", "_right")
        (some [("name", "coalesce")]) ≠ .error .noMergeColumn :=
  ⟨quick_merge_audit_branch_unreachable.1 dfCity [("city", "coalesce")] ("_left", "_right")
      "city_left",
    quick_merge_audit_branch_unreachable.2 dfL1 dfR1 ["id"] "left" none none none
      ("_left", "_right") (some [("name", "coalesce")])⟩
